import Mathlib

/-! BABE block-authoring service (`lib/babe/babe.go`)

A shallow embedding of the `Service` type of `lib/babe/babe.go` and of its
methods, followed by theorems about them.

Conventions of the embedding.

* A Go function that returns `error` (or `(T, error)`) is a Lean function into
  `Result`: `ok v` is a return with a nil error, `error e` a return with a
  non-nil error, `panic p` a run-time panic, and `blocked` says that the
  function was still waiting in a `select` when the supplied events ended.
* A field of interface or pointer type is an `Option`; `none` is Go's `nil`.
* The collaborators (`BlockState`, `StorageState`, `BlockImportHandler`,
  `EpochState`) are records of the answers they give. The three that follow
  the chain are asked at an instant `now` (Unix nanoseconds).
* Everything a method does to the outside world is recorded, in order, in a
  list of `Event`s returned next to the result.
* `uint64` values are natural numbers reduced modulo `2 ^ 64`; `int64` values
  are integers wrapped into `[-2 ^ 63, 2 ^ 63)`.
-/

namespace Babe

/-! ## Machine integers -/

/-- The conversion `uint64(x)` of a signed 64-bit value. -/
def toUint64 (x : Int) : Nat := (x % (2 : Int) ^ 64).toNat

/-- The conversion `int64(x)` (and `int(x)` on a 64-bit platform): wrap into
`[-2 ^ 63, 2 ^ 63)`. -/
def wrapInt64 (x : Int) : Int :=
  let r := x % (2 : Int) ^ 64
  if r < (2 : Int) ^ 63 then r else r - (2 : Int) ^ 64

/-- The method `(*big.Int).Int64`: the low 64 bits of the magnitude, negated
when the number is negative. -/
def bigInt64 (x : Int) : Int :=
  let v := wrapInt64 ((x.natAbs % 2 ^ 64 : Nat) : Int)
  if x < 0 then wrapInt64 (-v) else v

/-! ## Errors and results -/

/-- The error values that occur in `babe.go`. -/
inductive Err where
  /-- The value `errors.New("cannot create BABE service as authority; no keypair provided")`. -/
  | errNoKeypair
  | errNilBlockState
  | errNilStorageState
  | errNilEpochState
  | errNilBlockImportHandler
  | errNilParentHeader
  | ErrNotAuthority
  | ErrNotAuthorized
  /-- The value `fmt.Errorf("key not in BABE authority data")`. -/
  | errKeyNotInAuthorityData
  /-- The value `errors.New("service already stopped")`. -/
  | errAlreadyStopped
  /-- The value `errors.New("context cancelled")`. -/
  | errContextCancelled
  /-- The value `errors.New("service paused")`. -/
  | errServicePaused
  | errChannelClosed
  | errFirstBlockTimeout
  /-- The value `context.Canceled`, returned by `ctx.Err()` after `cancel()`. -/
  | ctxCanceled
  /-- An error handed back by a collaborator. -/
  | collab (code : Nat)
  deriving DecidableEq, Repr

/-- Run-time panics of the Go program. -/
inductive Panic where
  | nilDereference
  | divideByZero
  | makeSliceLen
  deriving DecidableEq, Repr

/-- Outcome of a Go call. -/
inductive Result (α : Type) where
  | ok (v : α)
  | error (e : Err)
  | panic (p : Panic)
  | blocked
  deriving DecidableEq, Repr

/-- The call returned a non-nil error. -/
def Result.isError {α : Type} : Result α → Bool
  | .error _ => true
  | _ => false

/-- The call returned with a nil error. -/
def Result.isOk {α : Type} : Result α → Bool
  | .ok _ => true
  | _ => false

/-! ## Data -/

/-- A public key, known through its encoding (`Encode()`). -/
structure PublicKey where
  encoding : List Nat
  deriving DecidableEq, Repr

/-- The type `sr25519.Keypair`; only `Public()` is used. -/
structure Keypair where
  pub : PublicKey
  deriving DecidableEq, Repr

/-- The method `Public()`. -/
def Keypair.Public (kp : Keypair) : PublicKey := kp.pub

/-- The method `Encode()`. -/
def PublicKey.Encode (k : PublicKey) : List Nat := k.encoding

/-- The type `types.Authority`. -/
structure Authority where
  Key : PublicKey
  Weight : Nat
  deriving DecidableEq, Repr

structure VrfOutputAndProof where
  output : List Nat
  proof : List Nat
  deriving DecidableEq, Repr

/-- The type `types.Header`, with the outcome of its `DeepCopy()`. -/
structure Header where
  Number : Int
  StateRoot : Nat
  hash : Nat
  copyErr : Option Err
  deriving DecidableEq, Repr

/-- The method `DeepCopy()`. -/
def Header.DeepCopy (h : Header) : Except Err Header :=
  match h.copyErr with
  | some e => .error e
  | none => .ok h

/-- The method `Hash()`. -/
def Header.Hash (h : Header) : Nat := h.hash

structure Block where
  Header : Header
  Body : List Nat
  deriving DecidableEq, Repr

structure TrieState where
  root : Nat
  deriving DecidableEq, Repr

/-- A runtime instance, with the trie state installed by `SetContextStorage`. -/
structure Runtime where
  id : Nat
  storage : Option TrieState
  deriving DecidableEq, Repr

/-- The method `SetContextStorage`. -/
def Runtime.SetContextStorage (rt : Runtime) (ts : TrieState) : Runtime :=
  { rt with storage := some ts }

structure Slot where
  start : Int
  duration : Int
  number : Nat
  deriving DecidableEq, Repr

/-- The result of `EpochState.GetLatestEpochData`. -/
structure EpochData where
  Randomness : List Nat
  Authorities : List Authority
  deriving DecidableEq, Repr

/-- The result of `EpochState.GetLatestConfigData`. -/
structure ConfigData where
  C1 : Nat
  C2 : Nat
  deriving DecidableEq, Repr

/-- The struct `epochData` of the package. -/
structure epochData where
  randomness : List Nat
  authorityIndex : Nat
  authorities : List Authority
  threshold : Nat
  deriving DecidableEq, Repr

/-! ## Collaborators -/

structure BlockState where
  /-- The pair `(header, err)`; either part may be nil. -/
  BestBlockHeader : Int → Option Header × Option Err
  GetRuntime : Int → Nat → Except Err Runtime

structure StorageState where
  /-- The pair `(ts, err)`; either part may be nil. -/
  TrieState : Int → Nat → Option TrieState × Option Err

structure TransactionState where
  pending : List (List Nat)

structure EpochState where
  GetCurrentEpoch : Except Err Nat
  GetLatestEpochData : Except Err EpochData
  GetSlotDuration : Except Err Int
  GetEpochLength : Except Err Nat
  GetLatestConfigData : Except Err ConfigData
  GetStartSlotForEpoch : Nat → Except Err Nat

structure BlockImportHandler where
  HandleBlockProduced : Int → Block → TrieState → Option Err

/-- Functions of the package whose bodies are in other files (`build.go`,
`crypto.go`); they are parameters of the embedding. -/
structure Deps where
  buildBlock : Header → Slot → Runtime → Except Err Block
  CalculateThreshold : Nat → Nat → Nat → Except Err Nat

/-! ## The service -/

/-- A channel `chan struct{}`: its identity and whether it has been closed. -/
structure Chan where
  id : Nat
  closed : Bool
  deriving DecidableEq, Repr

/-- The struct `Service`. The field `cancelled` stands for the pair
`ctx`/`cancel`: it is true once `cancel()` has been called, that is when
`ctx.Err() != nil`. The field `chanSeq` is the identity that the next
`make(chan struct{})` will get. -/
structure Service where
  cancelled : Bool
  authority : Bool
  dev : Bool
  lead : Bool
  blockState : Option BlockState
  storageState : Option StorageState
  transactionState : Option TransactionState
  epochState : Option EpochState
  epochLength : Nat
  blockImportHandler : Option BlockImportHandler
  keypair : Option Keypair
  slotDuration : Int
  epochData : Option epochData
  slotToProof : List (Nat × VrfOutputAndProof)
  pause : Chan
  chanSeq : Nat

/-- The struct `ServiceConfig` (without the logging level and the fields that
`babe.go` never reads). -/
structure ServiceConfig where
  BlockState : Option BlockState
  StorageState : Option StorageState
  TransactionState : Option TransactionState
  EpochState : Option EpochState
  BlockImportHandler : Option BlockImportHandler
  Keypair : Option Keypair
  IsDev : Bool
  Authority : Bool
  Lead : Bool

/-- What the service does to the outside world. -/
inductive Event where
  /-- The call `close(b.pause)` on the channel with this identity. -/
  | closePause (id : Nat)
  /-- The assignment `b.pause = make(chan struct{})`; the new identity. -/
  | makePause (id : Nat)
  /-- The statement `go b.initiate()`. -/
  | spawnInitiate
  /-- The call `b.cancel()`. -/
  | cancel
  /-- The two calls `ethmetrics.Unregister`. -/
  | unregisterMetrics
  | getNotifierChannel
  | freeNotifierChannel
  /-- The closure `cleanup` (stop and drain the timer). -/
  | timerCleanup
  | bestBlockHeader
  | storageLock
  | storageUnlock
  | trieState (root : Nat)
  | getRuntime (hash : Nat)
  /-- The call `b.buildBlock`, made by `handleSlot epoch slotNum`. -/
  | buildBlock (epoch slotNum : Nat)
  | telemetry
  /-- The call `b.blockImportHandler.HandleBlockProduced`, made by
  `handleSlot epoch slotNum`. -/
  | handleBlockProduced (epoch slotNum : Nat) (block : Block)
  /-- The call `b.handleSlot(epoch, slotNum)` made by the producer loop. -/
  | handleSlot (epoch slotNum : Nat)
  /-- The call `b.initiateEpoch(epoch)`. -/
  | initiateEpoch (epoch : Nat)
  /-- The call `b.incrementEpoch()`. -/
  | incrementEpoch
  /-- The call `b.epochState.GetStartSlotForEpoch(epoch)`. -/
  | getStartSlotForEpoch (epoch : Nat)
  /-- The statement `return b.Pause()` of `invokeBlockAuthoring`. -/
  | pauseForSync
  /-- The allocation `make([]<-chan time.Time, n)` of the slot timers. -/
  | makeSlotTimers (n : Nat)
  /-- A line logged at error or critical level by `initiate`. -/
  | logError (e : Err)
  deriving DecidableEq, Repr

/-! ## Lifecycle -/

/-- The method `IsPaused`: a receive on `b.pause` succeeds exactly when the
channel is closed (nothing is ever sent on it). -/
def IsPaused (b : Service) : Bool := b.pause.closed

/-- The method `Pause`. -/
def Pause (b : Service) : Result Unit × Service × List Event :=
  if IsPaused b then
    (.ok (), b, [])
  else
    (.ok (), { b with pause := { b.pause with closed := true } }, [.closePause b.pause.id])

/-- The method `Resume`. -/
def Resume (b : Service) : Result Unit × Service × List Event :=
  if !IsPaused b then
    (.ok (), b, [])
  else
    (.ok (), { b with pause := { id := b.chanSeq, closed := false }, chanSeq := b.chanSeq + 1 },
      [.makePause b.chanSeq, .spawnInitiate])

/-- The method `Stop`. -/
def Stop (b : Service) : Result Unit × Service × List Event :=
  if !b.authority then
    (.ok (), b, [])
  else if b.cancelled then
    (.error .errAlreadyStopped, b, [])
  else
    (.ok (), { b with cancelled := true }, [.unregisterMetrics, .cancel])

/-- The method `IsStopped`. -/
def IsStopped (b : Service) : Bool := b.cancelled

/-- A lifecycle call made on the service. -/
inductive Call where
  | pause
  | resume
  | stop
  deriving DecidableEq, Repr

/-- One lifecycle call. -/
def Call.run : Call → Service → Result Unit × Service × List Event
  | .pause, b => Pause b
  | .resume, b => Resume b
  | .stop, b => Stop b

/-- The service after a sequence of lifecycle calls. -/
def runCalls (b : Service) : List Call → Service
  | [] => b
  | c :: cs => runCalls (c.run b).2.1 cs

/-- The results and events of a sequence of lifecycle calls, one entry per call. -/
def callLog (b : Service) : List Call → List (Result Unit × List Event)
  | [] => []
  | c :: cs => ((c.run b).1, (c.run b).2.2) :: callLog (c.run b).2.1 cs

/-! ## Authority index and construction -/

/-- The loop `for i, auth := range Authorities` of `getAuthorityIndex`, started
at index `i`. -/
def findAuthority (pub : PublicKey) : List Authority → Nat → Option Nat
  | [], _ => none
  | auth :: rest, i =>
    if pub.Encode = auth.Key.Encode then some i else findAuthority pub rest (i + 1)

/-- The method `getAuthorityIndex`; the index is returned as `uint32(i)`. -/
def getAuthorityIndex (b : Service) (Authorities : List Authority) : Result Nat :=
  if !b.authority then
    .error .ErrNotAuthority
  else
    match b.keypair with
    | none => .panic .nilDereference
    | some kp =>
      match findAuthority kp.Public Authorities 0 with
      | some i => .ok (i % 2 ^ 32)
      | none => .error .errKeyNotInAuthorityData

/-- The method `setupParameters`; the service is returned as the method left
it (a value assigned together with a non-nil error is not recorded: the only
caller, `NewService`, drops the service in that case). -/
def setupParameters (d : Deps) (b : Service) (cfg : ServiceConfig) : Result Unit × Service :=
  let b1 := { b with epochData := some { randomness := [], authorityIndex := 0, authorities := [], threshold := 0 } }
  match b1.epochState with
  | none => (.panic .nilDereference, b1)
  | some es =>
    match es.GetLatestEpochData with
    | .error err => (.error err, b1)
    | .ok data =>
      let ed1 : epochData :=
        { randomness := data.Randomness, authorityIndex := 0, authorities := data.Authorities, threshold := 0 }
      let b2 := { b1 with epochData := some ed1 }
      match es.GetSlotDuration with
      | .error err => (.error err, b2)
      | .ok dur =>
        let b3 := { b2 with slotDuration := dur }
        match es.GetEpochLength with
        | .error err => (.error err, b3)
        | .ok len =>
          let b4 := { b3 with epochLength := len }
          match es.GetLatestConfigData with
          | .error err => (.error err, b4)
          | .ok configData =>
            match d.CalculateThreshold configData.C1 configData.C2 ed1.authorities.length with
            | .error err => (.error err, b4)
            | .ok threshold =>
              let ed2 := { ed1 with threshold := threshold }
              let b5 := { b4 with epochData := some ed2 }
              if !cfg.Authority then
                (.ok (), b5)
              else
                match getAuthorityIndex b5 ed2.authorities with
                | .ok idx => (.ok (), { b5 with epochData := some { ed2 with authorityIndex := idx } })
                | .error err => (.error err, b5)
                | .panic p => (.panic p, b5)
                | .blocked => (.blocked, b5)

/-- The function `NewService`. -/
def NewService (d : Deps) (cfg : ServiceConfig) : Result Service :=
  if cfg.Keypair.isNone && cfg.Authority then
    .error .errNoKeypair
  else if cfg.BlockState.isNone then
    .error .errNilBlockState
  else
    match cfg.EpochState with
    | none => .error .errNilEpochState
    | some es =>
      if cfg.BlockImportHandler.isNone then
        .error .errNilBlockImportHandler
      else
        let babeService : Service :=
          { cancelled := false
            blockState := cfg.BlockState
            storageState := cfg.StorageState
            epochState := cfg.EpochState
            keypair := cfg.Keypair
            transactionState := cfg.TransactionState
            slotToProof := []
            pause := { id := 0, closed := false }
            chanSeq := 1
            authority := cfg.Authority
            dev := cfg.IsDev
            blockImportHandler := cfg.BlockImportHandler
            lead := cfg.Lead
            epochLength := 0
            slotDuration := 0
            epochData := none }
        match es.GetCurrentEpoch with
        | .error err => .error err
        | .ok _ =>
          match setupParameters d babeService cfg with
          | (.ok _, b) => .ok b
          | (.error err, _) => .error err
          | (.panic p, _) => .panic p
          | (.blocked, _) => .blocked

/-! ## Start and the wait for the first block -/

/-- What the `select` of `waitForFirstBlock` can receive. -/
inductive FirstBlockEvent where
  /-- An imported block, with its header number. -/
  | block (number : Int)
  /-- The notifier channel was closed. -/
  | closed
  /-- The five-minute timer fired. -/
  | timer
  /-- The context was cancelled. -/
  | ctxDone
  deriving DecidableEq, Repr

/-- The loop `for { select { ... } }` of `waitForFirstBlock`. -/
def firstBlockLoop : List FirstBlockEvent → Result Unit × List Event
  | [] => (.blocked, [])
  | .closed :: _ => (.error .errChannelClosed, [.timerCleanup])
  | .block number :: rest =>
    if bigInt64 number > 0 then (.ok (), [.timerCleanup]) else firstBlockLoop rest
  | .timer :: _ => (.error .errFirstBlockTimeout, [])
  | .ctxDone :: _ => (.error .ctxCanceled, [.timerCleanup])

/-- The method `waitForFirstBlock`; the deferred call frees the channel on
every return. -/
def waitForFirstBlock (b : Service) (evs : List FirstBlockEvent) : Result Unit × List Event :=
  match b.blockState with
  | none => (.panic .nilDereference, [])
  | some _ =>
    match firstBlockLoop evs with
    | (.blocked, tr) => (.blocked, .getNotifierChannel :: tr)
    | (r, tr) => (r, .getNotifierChannel :: tr ++ [.freeNotifierChannel])

/-- The method `Start`. -/
def Start (b : Service) (evs : List FirstBlockEvent) : Result Unit × List Event :=
  if !b.authority then
    (.ok (), [])
  else if !b.lead then
    match waitForFirstBlock b evs with
    | (.ok _, tr) => (.ok (), tr ++ [.spawnInitiate])
    | (r, tr) => (r, tr)
  else
    (.ok (), [.spawnInitiate])

/-! ## Handling one slot -/

/-- The map lookup `_, has := b.slotToProof[slotNum]`. -/
def hasProof (b : Service) (slotNum : Nat) : Bool :=
  (b.slotToProof.lookup slotNum).isSome

/-- The method `handleSlot`, called at the instant `now`. The deferred
`Unlock` runs on every return that follows `Lock`. -/
def handleSlot (d : Deps) (b : Service) (now : Int) (epoch slotNum : Nat) :
    Result Unit × List Event :=
  if !hasProof b slotNum then
    (.error .ErrNotAuthorized, [])
  else
    match b.blockState with
    | none => (.panic .nilDereference, [])
    | some bs =>
      match bs.BestBlockHeader now with
      | (_, some err) => (.error err, [.bestBlockHeader])
      | (none, none) => (.error .errNilParentHeader, [.bestBlockHeader])
      | (some parentHeader, none) =>
        match parentHeader.DeepCopy with
        | .error err => (.error err, [.bestBlockHeader])
        | .ok parent =>
          let currentSlot : Slot := { start := now, duration := b.slotDuration, number := slotNum }
          match b.storageState with
          | none => (.panic .nilDereference, [.bestBlockHeader])
          | some ss =>
            match ss.TrieState now parent.StateRoot with
            | (_, some err) =>
              (.error err, [.bestBlockHeader, .storageLock, .trieState parent.StateRoot, .storageUnlock])
            | (none, none) =>
              (.ok (), [.bestBlockHeader, .storageLock, .trieState parent.StateRoot, .storageUnlock])
            | (some ts, none) =>
              match bs.GetRuntime now parent.Hash with
              | .error err =>
                (.error err, [.bestBlockHeader, .storageLock, .trieState parent.StateRoot,
                  .getRuntime parent.Hash, .storageUnlock])
              | .ok rt =>
                match d.buildBlock parent currentSlot (rt.SetContextStorage ts) with
                | .error err =>
                  (.error err, [.bestBlockHeader, .storageLock, .trieState parent.StateRoot,
                    .getRuntime parent.Hash, .buildBlock epoch slotNum, .storageUnlock])
                | .ok block =>
                  match b.blockImportHandler with
                  | none =>
                    (.panic .nilDereference, [.bestBlockHeader, .storageLock,
                      .trieState parent.StateRoot, .getRuntime parent.Hash,
                      .buildBlock epoch slotNum, .telemetry, .storageUnlock])
                  | some handler =>
                    match handler.HandleBlockProduced now block ts with
                    | some err =>
                      (.error err, [.bestBlockHeader, .storageLock, .trieState parent.StateRoot,
                        .getRuntime parent.Hash, .buildBlock epoch slotNum, .telemetry,
                        .handleBlockProduced epoch slotNum block, .storageUnlock])
                    | none =>
                      (.ok (), [.bestBlockHeader, .storageLock, .trieState parent.StateRoot,
                        .getRuntime parent.Hash, .buildBlock epoch slotNum, .telemetry,
                        .handleBlockProduced epoch slotNum block, .storageUnlock])

/-! ## Slot clock -/

/-- The function `getCurrentSlot`, with the reading `now` of
`time.Now().UnixNano()`. -/
def getCurrentSlot (now : Int) (slotDuration : Int) : Result Nat :=
  if toUint64 slotDuration = 0 then
    .panic .divideByZero
  else
    .ok (toUint64 now / toUint64 slotDuration)

/-- The function `getSlotStartTime`: an instant in nanoseconds since the Unix
epoch. -/
def getSlotStartTime (slot : Nat) (slotDuration : Int) : Int :=
  wrapInt64 (wrapInt64 (slot : Int) * slotDuration)

/-- Subtraction of `uint64` values. -/
def subU64 (x y : Nat) : Nat := toUint64 ((x : Int) - (y : Int))

/-- Addition of `uint64` values. -/
def addU64 (x y : Nat) : Nat := (x + y) % 2 ^ 64

/-! ## The producer loop

The loop waits in `select` statements. What it receives there is supplied from
outside: each wake-up names the case that is received, after the lifecycle calls
that other goroutines made on the service before. A case on `b.ctx.Done()` or
on `b.pause` can be received only when the context is cancelled or the channel
closed, a timer only from the instant it is due; and a `select` that finds a
case ready when it is reached does not wait. A wake-up that the `select` does
not allow leaves the loop `blocked`. -/

/-- The cases of the `select` in `waitForEpochStart`. -/
inductive WaitEv where
  | timer
  | ctxDone
  | pause
  deriving DecidableEq, Repr

/-- The cases of the `select` in the slot loop. -/
inductive SelectEv where
  | ctxDone
  | pause
  | slotDone
  | epochTimer
  deriving DecidableEq, Repr

/-- One wake-up of the slot loop. -/
structure Tick where
  /-- Lifecycle calls made by other goroutines since the wake-up before. -/
  calls : List Call
  /-- The instant at which the loop reaches the `select`: what lies between it
  and the `leave` before is the time that `handleSlot` took. -/
  enter : Int
  /-- The instant at which the `select` returns; it is the clock that
  `handleSlot` reads. -/
  leave : Int
  ev : SelectEv
  deriving DecidableEq, Repr

/-- The function `time.Until(t)` at the instant `now`: the difference as a
`time.Duration`, which saturates at the ends of `int64`. -/
def timeUntil (t now : Int) : Int :=
  max (-(2 : Int) ^ 63) (min (t - now) ((2 : Int) ^ 63 - 1))

/-- The instant from which the timer of slot `i` can be received: it is made at
`t0` by `time.After(b.getSlotDuration() * time.Duration(i))`, and a timer made
with a duration of zero or less is due at once. -/
def slotTimerDue (t0 slotDuration : Int) (i : Nat) : Int :=
  t0 + max 0 (wrapInt64 (slotDuration * wrapInt64 (i : Int)))

/-- The instant from which the epoch timer can be received: it is made at `t0`
by `time.NewTimer(time.Until(nextEpochStartTime))`. -/
def epochTimerDue (t0 nextEpochStartTime : Int) : Int :=
  t0 + max 0 (timeUntil nextEpochStartTime t0)

/-- Whether a case of the `select` of the slot loop can be received at the
instant `leave`, on the service as the lifecycle calls left it. -/
def caseReady (ev : SelectEv) (b1 : Service) (slotDue epochDue leave : Int) : Bool :=
  match ev with
  | .ctxDone => b1.cancelled
  | .pause => IsPaused b1
  | .slotDone => decide (slotDue ≤ leave)
  | .epochTimer => decide (epochDue ≤ leave)

/-- Whether the `select` allows the wake-up: the loop reaches the `select` at
`enter`, not before the `select` before it returned (`prev`); it returns at
`leave` with a case that is ready then; and when it returns later than it was
reached it has been waiting, so that on entry the context was not cancelled and
the pause channel not closed, and neither timer is due before `leave`. -/
def Tick.allowed (t : Tick) (prev : Int) (b b1 : Service) (slotDue epochDue : Int) : Bool :=
  decide (prev ≤ t.enter) && decide (t.enter ≤ t.leave) &&
    caseReady t.ev b1 slotDue epochDue t.leave &&
    (decide (t.enter = t.leave) ||
      (!b.cancelled && !IsPaused b && decide (t.leave ≤ slotDue) && decide (t.leave ≤ epochDue)))

/-- What the outside supplies to one iteration of the epoch loop of
`invokeBlockAuthoring`. The method `initiateEpoch` and `incrementEpoch` are
defined in `epoch.go`: their results are supplied here (`initiateEpoch` leaves
new epoch data and a new `slotToProof` in the service). -/
structure EpochStep where
  /-- Lifecycle calls made by other goroutines before the iteration reads the
  pause channel. -/
  calls : List Call
  initiateEpoch : Except Err (epochData × List (Nat × VrfOutputAndProof))
  /-- The clock read by `time.Since` in `waitForEpochStart`. -/
  waitNow : Int
  /-- The wake-up of the `select` in `waitForEpochStart`, when it waits. -/
  wake : Option (List Call × WaitEv)
  /-- The clock read by `getCurrentSlot`; the timers of the iteration, made
  right after, are taken to be made at this instant. -/
  now : Int
  ticks : List Tick
  incrementEpoch : Except Err Nat

/-- The method `waitForEpochStart`. -/
def waitForEpochStart (b : Service) (epoch : Nat) (waitNow : Int)
    (wake : Option (List Call × WaitEv)) : Result Nat × Service × List Event :=
  match b.epochState with
  | none => (.panic .nilDereference, b, [])
  | some es =>
    match es.GetStartSlotForEpoch epoch with
    | .error err => (.error err, b, [.getStartSlotForEpoch epoch])
    | .ok epochStart =>
      let epochStartTime := getSlotStartTime epochStart b.slotDuration
      if waitNow - epochStartTime < 0 then
        match wake with
        | none => (.blocked, b, [.getStartSlotForEpoch epoch])
        | some (calls, ev) =>
          let b1 := runCalls b calls
          match ev with
          | .timer => (.ok epochStart, b1, [.getStartSlotForEpoch epoch])
          | .ctxDone =>
            if b1.cancelled then (.error .errContextCancelled, b1, [.getStartSlotForEpoch epoch])
            else (.blocked, b1, [.getStartSlotForEpoch epoch])
          | .pause =>
            if IsPaused b1 then (.error .errServicePaused, b1, [.getStartSlotForEpoch epoch])
            else (.blocked, b1, [.getStartSlotForEpoch epoch])
      else
        (.ok epochStart, b, [.getStartSlotForEpoch epoch])

/-- How the slot loop of one epoch ends. -/
inductive LoopExit where
  /-- The method `invokeBlockAuthoring` is left with this result. -/
  | exit (r : Result Unit)
  /-- The `for` loop over the slots is over (all slots done, or `break` on the
  epoch timer). -/
  | over
  deriving DecidableEq, Repr

/-- The loop `for i := 0; i < int(b.epochLength-intoEpoch); i++` that receives
the slot timers, from index `i` on; `count` is its bound, `t0` the instant at
which the timers were made, `slotDuration` the duration they were made with,
`epochDue` the instant from which the epoch timer is due and `prev` the instant
at which the `select` before returned. -/
def slotLoop (d : Deps) (epoch startSlot count : Nat) (t0 slotDuration epochDue : Int) :
    Nat → Int → Service → List Tick → LoopExit × Service × List Event
  | i, prev, b, ticks =>
    if count ≤ i then
      (.over, b, [])
    else
      match ticks with
      | [] => (.exit .blocked, b, [])
      | t :: rest =>
        let b1 := runCalls b t.calls
        if !t.allowed prev b b1 (slotTimerDue t0 slotDuration i) epochDue then
          (.exit .blocked, b1, [])
        else
          match t.ev with
          | .ctxDone => (.exit (.ok ()), b1, [.timerCleanup])
          | .pause => (.exit (.ok ()), b1, [.timerCleanup])
          | .slotDone =>
            let slotNum := addU64 startSlot i
            match handleSlot d b1 t.leave epoch slotNum with
            | (.panic p, tr) => (.exit (.panic p), b1, .handleSlot epoch slotNum :: tr)
            | (.blocked, tr) => (.exit .blocked, b1, .handleSlot epoch slotNum :: tr)
            | (_, tr) =>
              match slotLoop d epoch startSlot count t0 slotDuration epochDue (i + 1) t.leave b1
                  rest with
              | (x, b2, tr2) => (x, b2, .handleSlot epoch slotNum :: tr ++ tr2)
          | .epochTimer => (.over, b1, [])

/-- How one iteration of the epoch loop ends. -/
inductive EpochExit where
  /-- The method `invokeBlockAuthoring` is left with this result. -/
  | exit (r : Result Unit)
  /-- The iteration is complete; the loop goes on with this epoch. -/
  | next (epoch : Nat)
  deriving DecidableEq, Repr

/-- The part of an epoch iteration that follows the catch-up test: the query
for the start of the next epoch, which arms the epoch timer, the slot timers,
the slot loop and `incrementEpoch`. The allocation
`make([]<-chan time.Time, n)` panics when the `uint64` length `n` is negative
as an `int`; the limits of the allocator below that are not part of the
embedding. -/
def slotPhase (d : Deps) (b : Service) (epoch startSlot intoEpoch : Nat) (st : EpochStep) :
    EpochExit × Service × List Event :=
  match b.epochState with
  | none => (.exit (.panic .nilDereference), b, [])
  | some es =>
    match es.GetStartSlotForEpoch (addU64 epoch 1) with
    | .error err => (.exit (.error err), b, [.getStartSlotForEpoch (addU64 epoch 1)])
    | .ok nextEpochStart =>
      let nextEpochStartTime := getSlotStartTime nextEpochStart b.slotDuration
      let epochDue := epochTimerDue st.now nextEpochStartTime
      let n := subU64 b.epochLength intoEpoch
      if wrapInt64 n < 0 then
        (.exit (.panic .makeSliceLen), b, [.getStartSlotForEpoch (addU64 epoch 1)])
      else
        match slotLoop d epoch startSlot (wrapInt64 n).toNat st.now b.slotDuration epochDue
            0 st.now b st.ticks with
        | (.exit r, b1, tr) =>
          (.exit r, b1, .getStartSlotForEpoch (addU64 epoch 1) :: .makeSlotTimers n :: tr)
        | (.over, b1, tr) =>
          match st.incrementEpoch with
          | .error err =>
            (.exit (.error err), b1,
              .getStartSlotForEpoch (addU64 epoch 1) :: .makeSlotTimers n :: tr ++ [.incrementEpoch])
          | .ok next =>
            (.next next, b1,
              .getStartSlotForEpoch (addU64 epoch 1) :: .makeSlotTimers n :: tr ++ [.incrementEpoch])

/-- The catch-up test of `invokeBlockAuthoring`, from the reading of the current
slot to the reduction of `intoEpoch` in dev mode, and what follows it. -/
def catchUp (d : Deps) (b : Service) (epoch epochStartSlot : Nat) (st : EpochStep) :
    EpochExit × Service × List Event :=
  match getCurrentSlot st.now b.slotDuration with
  | .error err => (.exit (.error err), b, [])
  | .panic p => (.exit (.panic p), b, [])
  | .blocked => (.exit .blocked, b, [])
  | .ok startSlot =>
    let intoEpoch := subU64 startSlot epochStartSlot
    if decide (b.epochLength ≤ intoEpoch) && !b.dev then
      match Pause b with
      | (r, b1, tr) => (.exit r, b1, .pauseForSync :: tr)
    else if b.dev then
      if b.epochLength = 0 then
        (.exit (.panic .divideByZero), b, [])
      else
        slotPhase d b epoch startSlot (intoEpoch % b.epochLength) st
    else
      slotPhase d b epoch startSlot intoEpoch st

/-- One iteration of the loop `for { ... }` of `invokeBlockAuthoring`, for the
epoch `epoch`. -/
def epochIteration (d : Deps) (b : Service) (epoch : Nat) (st : EpochStep) :
    EpochExit × Service × List Event :=
  let b0 := runCalls b st.calls
  match st.initiateEpoch with
  | .error err => (.exit (.error err), b0, [.initiateEpoch epoch])
  | .ok (data, proofs) =>
    let b1 := { b0 with epochData := some data, slotToProof := proofs }
    match waitForEpochStart b1 epoch st.waitNow st.wake with
    | (.error err, b2, tr) => (.exit (.error err), b2, .initiateEpoch epoch :: tr)
    | (.panic p, b2, tr) => (.exit (.panic p), b2, .initiateEpoch epoch :: tr)
    | (.blocked, b2, tr) => (.exit .blocked, b2, .initiateEpoch epoch :: tr)
    | (.ok epochStartSlot, b2, tr) =>
      match catchUp d b2 epoch epochStartSlot st with
      | (x, b3, tr2) => (x, b3, .initiateEpoch epoch :: tr ++ tr2)

/-- The loop `for { ... }` of `invokeBlockAuthoring`, one `EpochStep` for each
iteration. -/
def epochLoop (d : Deps) : Nat → Service → List EpochStep → Result Unit × Service × List Event
  | _, b, [] => (.blocked, b, [])
  | epoch, b, st :: rest =>
    match epochIteration d b epoch st with
    | (.exit r, b1, tr) => (r, b1, tr)
    | (.next next, b1, tr) =>
      match epochLoop d next b1 rest with
      | (r, b2, tr2) => (r, b2, tr ++ tr2)

/-- The method `invokeBlockAuthoring`. -/
def invokeBlockAuthoring (d : Deps) (b : Service) (steps : List EpochStep) :
    Result Unit × Service × List Event :=
  match b.epochState with
  | none => (.panic .nilDereference, b, [])
  | some es =>
    match es.GetCurrentEpoch with
    | .error err => (.error err, b, [])
    | .ok epoch => epochLoop d epoch b steps

/-- The method `initiate`: it returns nothing, an error of the loop is logged. -/
def initiate (d : Deps) (b : Service) (steps : List EpochStep) :
    Result Unit × Service × List Event :=
  if b.blockState.isNone then
    (.ok (), b, [.logError .errNilBlockState])
  else if b.storageState.isNone then
    (.ok (), b, [.logError .errNilStorageState])
  else
    match invokeBlockAuthoring d b steps with
    | (.error err, b1, tr) => (.ok (), b1, tr ++ [.logError err])
    | (r, b1, tr) => (r, b1, tr)

/-- Runs of the producer loop one after the other on the same service: the
first is the goroutine spawned by `Start`; each later one is spawned by a call
of `Resume` made after the run before it has returned, when that call spawns
one. The events of all the runs, in order. -/
def respawnedRuns (d : Deps) : Service → List (List EpochStep) → List Event
  | _, [] => []
  | b, steps :: rest =>
    match initiate d b steps with
    | (.ok _, b1, tr) =>
      match Resume b1 with
      | (_, b2, evs) =>
        if Event.spawnInitiate ∈ evs then tr ++ evs ++ respawnedRuns d b2 rest else tr ++ evs
    | (_, _, tr) => tr

/-- The pair `(epoch, slotNum)` of a call of `handleSlot`. -/
def Event.handled? : Event → Option (Nat × Nat)
  | .handleSlot epoch slotNum => some (epoch, slotNum)
  | _ => none

/-- The pair `(epoch, slotNum)` of a block handed to `HandleBlockProduced`. -/
def Event.submitted? : Event → Option (Nat × Nat)
  | .handleBlockProduced epoch slotNum _ => some (epoch, slotNum)
  | _ => none

/-- The epoch of a call of `initiateEpoch`. -/
def Event.initiated? : Event → Option Nat
  | .initiateEpoch epoch => some epoch
  | _ => none

/-- The pairs `(epoch, slotNum)` of the calls of `handleSlot` in a list of
events, in order. -/
def handledSlots (tr : List Event) : List (Nat × Nat) := tr.filterMap Event.handled?

/-- The pairs `(epoch, slotNum)` of the blocks handed to
`BlockImportHandler.HandleBlockProduced` in a list of events, in order. -/
def submittedSlots (tr : List Event) : List (Nat × Nat) := tr.filterMap Event.submitted?

/-- The epochs for which `initiateEpoch` is called in a list of events, in
order: one for each iteration of the epoch loop. -/
def initiatedEpochs (tr : List Event) : List Nat := tr.filterMap Event.initiated?

/-- The service of a successful construction. -/
def Result.toOption {α : Type} : Result α → Option α
  | .ok v => some v
  | _ => none

/-- The error of a call that returned one. -/
def Result.err? {α : Type} : Result α → Option Err
  | .error e => some e
  | _ => none

/-! ## A small network, used to evaluate the definitions

One authority, Alice; one-second slots; epochs of ten slots, epoch `e` starting
at slot `10 * e`. -/

def aliceKey : PublicKey := { encoding := [1] }

def bobKey : PublicKey := { encoding := [2] }

def demoEpochState : EpochState :=
  { GetCurrentEpoch := .ok 0
    GetLatestEpochData := .ok { Randomness := [], Authorities := [{ Key := aliceKey, Weight := 1 }] }
    GetSlotDuration := .ok 1000000000
    GetEpochLength := .ok 10
    GetLatestConfigData := .ok { C1 := 1, C2 := 1 }
    GetStartSlotForEpoch := fun e => .ok (10 * e) }

def demoHeader : Header := { Number := 0, StateRoot := 7, hash := 9, copyErr := none }

def demoBlockState : BlockState :=
  { BestBlockHeader := fun _ => (some demoHeader, none)
    GetRuntime := fun _ _ => .ok { id := 0, storage := none } }

def demoStorageState : StorageState :=
  { TrieState := fun _ root => (some { root := root }, none) }

/-- A storage state whose `TrieState` returns `(nil, nil)`. -/
def emptyStorageState : StorageState :=
  { TrieState := fun _ _ => (none, none) }

def demoImportHandler : BlockImportHandler :=
  { HandleBlockProduced := fun _ _ _ => none }

def demoDeps : Deps :=
  { buildBlock := fun parent slot _ =>
      .ok { Header := { Number := parent.Number + 1, StateRoot := parent.StateRoot,
                        hash := slot.number, copyErr := none },
            Body := [] }
    CalculateThreshold := fun _ _ n => if n = 0 then .error (.collab 0) else .ok 1 }

/-- Alice, the lead authority. -/
def demoConfig : ServiceConfig :=
  { BlockState := some demoBlockState
    StorageState := some demoStorageState
    TransactionState := some { pending := [] }
    EpochState := some demoEpochState
    BlockImportHandler := some demoImportHandler
    Keypair := some { pub := aliceKey }
    IsDev := false
    Authority := true
    Lead := true }

/-- Bob, configured as an authority although his key is not in the set. -/
def strangerConfig : ServiceConfig := { demoConfig with Keypair := some { pub := bobKey } }

/-- Bob, not configured as an authority. -/
def observerConfig : ServiceConfig :=
  { demoConfig with Keypair := some { pub := bobKey }, Authority := false }

/-- Alice, configured without a storage state. -/
def noStorageConfig : ServiceConfig := { demoConfig with StorageState := none }

/-- The service that `NewService` builds for Alice. -/
def demoService : Service :=
  { cancelled := false
    authority := true
    dev := false
    lead := true
    blockState := some demoBlockState
    storageState := some demoStorageState
    transactionState := some { pending := [] }
    epochState := some demoEpochState
    epochLength := 10
    blockImportHandler := some demoImportHandler
    keypair := some { pub := aliceKey }
    slotDuration := 1000000000
    epochData := some { randomness := [], authorityIndex := 0,
                        authorities := [{ Key := aliceKey, Weight := 1 }], threshold := 1 }
    slotToProof := []
    pause := { id := 0, closed := false }
    chanSeq := 1 }

/-- The service that `NewService` builds for Bob the observer. -/
def observerService : Service :=
  { demoService with authority := false, keypair := some { pub := bobKey } }

/-- Epoch data and slot proofs left by `initiateEpoch` when Alice is elected
for slot 5. -/
def demoInitiate : Except Err (epochData × List (Nat × VrfOutputAndProof)) :=
  .ok ({ randomness := [], authorityIndex := 0,
         authorities := [{ Key := aliceKey, Weight := 1 }], threshold := 1 },
       [(5, { output := [], proof := [] })])

/-- An iteration entered 25.1 s after the Unix epoch, in slot 25, while epoch 0
covers the slots 0 to 9. -/
def lateStep : EpochStep :=
  { calls := []
    initiateEpoch := demoInitiate
    waitNow := 25100000000
    wake := none
    now := 25100000000
    ticks := [{ calls := [], enter := 25100000000, leave := 25100000000, ev := .slotDone }]
    incrementEpoch := .ok 1 }

/-- The demo service in dev mode. -/
def devService : Service := { demoService with dev := true }

/-- Epoch data and slot proofs left by `initiateEpoch` for epoch 1 (slots 10 to
19) when Alice is elected for slot 15. -/
def demoInitiateNext : Except Err (epochData × List (Nat × VrfOutputAndProof)) :=
  .ok ({ randomness := [], authorityIndex := 0,
         authorities := [{ Key := aliceKey, Weight := 1 }], threshold := 1 },
       [(15, { output := [], proof := [] })])

/-- A dev-mode run entered 25.1 s after the Unix epoch, two epochs late. In the
iteration for epoch 0 the epoch timer (epoch 1 started at 10 s) and the timer
of the first slot are both due at once: the slot timer is received and slot 25
handled, then the epoch timer is received and the slot loop left. The
iteration for epoch 1 reads the clock at 25.2 s, still in slot 25; its first
slot timer is received at once. -/
def devRun : List EpochStep :=
  [{ calls := []
     initiateEpoch := demoInitiate
     waitNow := 25100000000
     wake := none
     now := 25100000000
     ticks := [{ calls := [], enter := 25100000000, leave := 25100000000, ev := .slotDone },
               { calls := [], enter := 25100000100, leave := 25100000100, ev := .epochTimer }]
     incrementEpoch := .ok 1 },
   { calls := []
     initiateEpoch := demoInitiateNext
     waitNow := 25200000000
     wake := none
     now := 25200000000
     ticks := [{ calls := [], enter := 25200000000, leave := 25200000000, ev := .slotDone }]
     incrementEpoch := .ok 2 }]

/-- An iteration entered 5.1 s after the Unix epoch, in slot 5: the timer of
slot 5 is received at once; the loop then waits, `Pause` is called at 5.3 s
and the loop sees the closed channel. -/
def onTimeStep : EpochStep :=
  { calls := []
    initiateEpoch := demoInitiate
    waitNow := 5100000000
    wake := none
    now := 5100000000
    ticks := [{ calls := [], enter := 5100000000, leave := 5100000000, ev := .slotDone },
              { calls := [.pause], enter := 5100200000, leave := 5300000000, ev := .pause }]
    incrementEpoch := .ok 1 }

/-- The run spawned by `Start`, 5.1 s after the Unix epoch. -/
def firstRun : List EpochStep := [onTimeStep]

/-- The run spawned by a `Resume` at 5.5 s: still slot 5. -/
def secondRun : List EpochStep :=
  [{ calls := []
     initiateEpoch := demoInitiate
     waitNow := 5500000000
     wake := none
     now := 5500000000
     ticks := [{ calls := [], enter := 5500000000, leave := 5500000000, ev := .slotDone }]
     incrementEpoch := .ok 1 }]

/-- Epoch data and slot proofs left by `initiateEpoch` for epoch 0 when Alice
is elected for the slots 5 and 7. -/
def fullInitiate : Except Err (epochData × List (Nat × VrfOutputAndProof)) :=
  .ok ({ randomness := [], authorityIndex := 0,
         authorities := [{ Key := aliceKey, Weight := 1 }], threshold := 1 },
       [(5, { output := [], proof := [] }), (7, { output := [], proof := [] })])

/-- Epoch data and slot proofs left by `initiateEpoch` for epoch 1 when Alice
is elected for slot 10. -/
def fullInitiateNext : Except Err (epochData × List (Nat × VrfOutputAndProof)) :=
  .ok ({ randomness := [], authorityIndex := 0,
         authorities := [{ Key := aliceKey, Weight := 1 }], threshold := 1 },
       [(10, { output := [], proof := [] })])

/-- An iteration for epoch 0 entered 5.1 s after the Unix epoch and run to its
end: the timers of the slots 5 to 9 are received at 5.1 s, 6.1 s, ..., 9.1 s,
each when it falls due, before the epoch timer (10 s). -/
def fullStep : EpochStep :=
  { calls := []
    initiateEpoch := fullInitiate
    waitNow := 5100000000
    wake := none
    now := 5100000000
    ticks := [{ calls := [], enter := 5100000000, leave := 5100000000, ev := .slotDone },
              { calls := [], enter := 5100200000, leave := 6100000000, ev := .slotDone },
              { calls := [], enter := 6100200000, leave := 7100000000, ev := .slotDone },
              { calls := [], enter := 7100200000, leave := 8100000000, ev := .slotDone },
              { calls := [], enter := 8100200000, leave := 9100000000, ev := .slotDone }]
    incrementEpoch := .ok 1 }

/-- The iteration for epoch 1 that follows `fullStep`: at 9.1 s the epoch has
not started, the loop waits for its start at 10 s; the timers of the slots 10
and 11 are received at 10 s and 11 s. -/
def nextStep : EpochStep :=
  { calls := []
    initiateEpoch := fullInitiateNext
    waitNow := 9100300000
    wake := some ([], .timer)
    now := 10000000000
    ticks := [{ calls := [], enter := 10000000000, leave := 10000000000, ev := .slotDone },
              { calls := [], enter := 10000200000, leave := 11000000000, ev := .slotDone }]
    incrementEpoch := .ok 2 }

/-- A run of the loop over the end of epoch 0 and the start of epoch 1. -/
def fullRun : List EpochStep := [fullStep, nextStep]

/-! ## Further values, used to state and evaluate the later theorems -/

/-- What each deciding event of the first-block waiter is said to give: a block
(numbered above zero) success, a closed channel the channel-closed error, the
timer the first-block-timeout error, a cancellation the error of the context. -/
def firstBlockVerdict : FirstBlockEvent → Result Unit
  | .block _ => .ok ()
  | .closed => .error .errChannelClosed
  | .timer => .error .errFirstBlockTimeout
  | .ctxDone => .error .ctxCanceled

/-- Alice as an authority that is not the lead node. -/
def followerService : Service := { demoService with lead := false }

/-- An epoch store like the demo one, with an epoch length of zero. -/
def zeroLengthEpochState : EpochState := { demoEpochState with GetEpochLength := .ok 0 }

/-- Alice in dev mode on the chain whose epoch length is zero. -/
def zeroLengthDevConfig : ServiceConfig :=
  { demoConfig with EpochState := some zeroLengthEpochState, IsDev := true }

/-- A dev-mode iteration for epoch 0 (slots 0 to 9) entered 25 s after the Unix
epoch, in slot 25: the epoch timer (epoch 1 started at 10 s) and the timer of
the first slot are both due at once; the slot timer is received, then the epoch
timer. -/
def devLateStep : EpochStep :=
  { calls := []
    initiateEpoch := demoInitiate
    waitNow := 25000000001
    wake := none
    now := 25000000001
    ticks := [{ calls := [], enter := 25000000001, leave := 25000000001, ev := .slotDone },
              { calls := [], enter := 25000000101, leave := 25000000101, ev := .epochTimer }]
    incrementEpoch := .ok 1 }

/-! ## Theorems -/

/-- The keys of the map `slotToProof`. -/
theorem hasProof_iff_mem_keys (b : Service) (slotNum : Nat) :
    hasProof b slotNum = true ↔ slotNum ∈ b.slotToProof.map Prod.fst := by
  unfold hasProof
  induction b.slotToProof with
  | nil => simp [List.lookup]
  | cons p rest ih =>
    obtain ⟨k, v⟩ := p
    by_cases hk : slotNum = k
    · subst hk
      simp [List.lookup]
    · have hne : (slotNum == k) = false := by simpa using hk
      simp only [List.lookup, hne, List.map_cons, List.mem_cons, hk, false_or]
      exact ih

/-- C1: for a slot number that is not a key of `slotToProof`, `handleSlot`
returns `ErrNotAuthorized` and does nothing else (no read of the best block
header, no storage lock, no block built, no call of `HandleBlockProduced`);
and whenever `handleSlot` hands a block to `HandleBlockProduced`, it is for
its own epoch and slot, and that slot is a key of `slotToProof`. -/
theorem handleSlot_unauthorized (d : Deps) (b : Service) (now : Int) (epoch slotNum : Nat) :
    (slotNum ∉ b.slotToProof.map Prod.fst →
      handleSlot d b now epoch slotNum = (.error .ErrNotAuthorized, [])) ∧
    (∀ e s blk, Event.handleBlockProduced e s blk ∈ (handleSlot d b now epoch slotNum).2 →
      slotNum ∈ b.slotToProof.map Prod.fst ∧ e = epoch ∧ s = slotNum) := by
  constructor
  · intro h
    have hp : hasProof b slotNum = false := by
      rw [← Bool.not_eq_true, hasProof_iff_mem_keys]
      exact h
    simp [handleSlot, hp]
  · intro e s blk hmem
    by_cases hp : hasProof b slotNum = true
    · refine ⟨(hasProof_iff_mem_keys b slotNum).1 hp, ?_⟩
      unfold handleSlot at hmem
      simp only [hp, Bool.not_true, Bool.false_eq_true, if_false] at hmem
      split at hmem
      · simp at hmem
      · split at hmem
        · simp at hmem
        · simp at hmem
        · split at hmem
          · simp at hmem
          · split at hmem
            · simp at hmem
            · split at hmem
              · simp at hmem
              · simp at hmem
              · split at hmem
                · simp at hmem
                · split at hmem
                  · simp at hmem
                  · split at hmem
                    · simp at hmem
                    · split at hmem
                      · simp at hmem
                        exact ⟨hmem.1, hmem.2.1⟩
                      · simp at hmem
                        exact ⟨hmem.1, hmem.2.1⟩
    · have hp2 : hasProof b slotNum = false := by simpa using hp
      simp [handleSlot, hp2] at hmem

/-- C1 at work: slot 3 is not a key of the map of the demo service, slot 5 is a
key once `initiateEpoch` has elected Alice for it. -/
theorem handleSlot_unauthorized_witness :
    handleSlot demoDeps demoService 0 0 3 = (.error .ErrNotAuthorized, []) ∧
    5 ∈ ({ demoService with slotToProof := [(5, { output := [], proof := [] })] } : Service).slotToProof.map
      Prod.fst :=
  ⟨(handleSlot_unauthorized demoDeps demoService 0 0 3).1 (by decide),
   ((handleSlot_unauthorized demoDeps
      { demoService with slotToProof := [(5, { output := [], proof := [] })] } 0 0 5).2 0 5
      { Header := { Number := 1, StateRoot := 7, hash := 5, copyErr := none }, Body := [] }
      (by decide)).1⟩

/-! ### Lifecycle -/

/-- No lifecycle call changes whether the service is an authority. -/
theorem Call.run_authority (c : Call) (b : Service) : (c.run b).2.1.authority = b.authority := by
  cases c
  · simp only [Call.run, Pause]; split <;> rfl
  · simp only [Call.run, Resume]; split <;> rfl
  · simp only [Call.run, Stop]; split
    · rfl
    · split <;> rfl

/-- No lifecycle call un-cancels the context. -/
theorem Call.run_cancelled (c : Call) (b : Service) (h : b.cancelled = true) :
    (c.run b).2.1.cancelled = true := by
  cases c
  · simp only [Call.run, Pause]; split <;> simp [h]
  · simp only [Call.run, Resume]; split <;> simp [h]
  · simp only [Call.run, Stop]; split
    · exact h
    · simp [h]

theorem runCalls_authority (b : Service) (calls : List Call) :
    (runCalls b calls).authority = b.authority := by
  induction calls generalizing b with
  | nil => rfl
  | cons c cs ih => rw [runCalls, ih, Call.run_authority]

theorem runCalls_cancelled (b : Service) (calls : List Call) (h : b.cancelled = true) :
    (runCalls b calls).cancelled = true := by
  induction calls generalizing b with
  | nil => exact h
  | cons c cs ih => rw [runCalls]; exact ih _ (Call.run_cancelled c b h)

/-- C4, for an authority: after `Stop`, `IsStopped` is true, it stays true under
any later sequence of `Pause`, `Resume` and `Stop`, and every later `Stop`
returns the already-stopped error. -/
theorem Stop_terminal_for_authority (b : Service) (h : b.authority = true) (calls : List Call) :
    IsStopped (Stop b).2.1 = true ∧
    IsStopped (runCalls (Stop b).2.1 calls) = true ∧
    (Stop (runCalls (Stop b).2.1 calls)).1 = .error .errAlreadyStopped := by
  have h1 : (Stop b).2.1.cancelled = true := by
    simp only [Stop, h, Bool.not_true, Bool.false_eq_true, if_false]
    split
    · assumption
    · rfl
  have h2 : (runCalls (Stop b).2.1 calls).cancelled = true := runCalls_cancelled _ _ h1
  have h3 : (runCalls (Stop b).2.1 calls).authority = true := by
    rw [runCalls_authority]
    exact (Call.run_authority .stop b).trans h
  refine ⟨h1, h2, ?_⟩
  generalize runCalls (Stop b).2.1 calls = x at h2 h3
  simp [Stop, h2, h3]

theorem Stop_terminal_for_authority_witness :
    IsStopped (Stop demoService).2.1 = true ∧
    IsStopped (runCalls (Stop demoService).2.1 [.pause, .resume, .stop]) = true ∧
    (Stop (runCalls (Stop demoService).2.1 [.pause, .resume, .stop])).1 = .error .errAlreadyStopped :=
  Stop_terminal_for_authority demoService (by decide) [.pause, .resume, .stop]

/-- C4 fails for a service that is not an authority: for the service that
`NewService` builds for the observer configuration, `Stop` returns nil, the
service is not stopped afterwards, and a second `Stop` returns nil again. -/
theorem Stop_not_terminal_for_observer :
    (NewService demoDeps observerConfig).toOption.map
      (fun b => ((Stop b).1, IsStopped (Stop b).2.1, (Stop (Stop b).2.1).1)) =
      some (.ok (), false, .ok ()) := by
  decide

/-- C5 evaluated: on the service that `NewService` builds for Alice, after
`Pause` and `Stop`, the call of `Resume` returns nil, makes a new pause channel
and spawns the producer loop again, while `IsStopped` is true; and after `Stop`
alone, `Resume` returns nil as well. -/
theorem Resume_after_Stop_returns_nil :
    (NewService demoDeps demoConfig).toOption.map
      (fun b =>
        let stopped := (Stop (Pause b).2.1).2.1
        ((Resume stopped).1, (Resume stopped).2.2, IsStopped (Resume stopped).2.1,
          (Resume (Stop b).2.1).1, (Resume (Stop b).2.1).2.2)) =
      some (.ok (), [.makePause 1, .spawnInitiate], true, .ok (), []) := by
  decide

/-- Both `Pause` and `Resume` return nil. -/
theorem Call.run_ok (c : Call) (b : Service) (h : c ≠ .stop) : (c.run b).1 = .ok () := by
  cases c
  · simp only [Call.run, Pause]; split <;> rfl
  · simp only [Call.run, Resume]; split <;> rfl
  · exact absurd rfl h

theorem IsPaused_Pause (b : Service) : IsPaused (Pause b).2.1 = true := by
  unfold Pause
  split
  · assumption
  · rfl

theorem IsPaused_Resume (b : Service) : IsPaused (Resume b).2.1 = false := by
  unfold Resume
  split
  · rename_i h
    simpa using h
  · rfl

/-- The pause state after a sequence of `Pause` and `Resume` calls. -/
theorem IsPaused_runCalls (b : Service) (calls : List Call) (h : ∀ c ∈ calls, c ≠ Call.stop) :
    IsPaused (runCalls b calls) =
      match calls.getLast? with
      | some .pause => true
      | some _ => false
      | none => IsPaused b := by
  induction calls generalizing b with
  | nil => rfl
  | cons c cs ih =>
    rw [runCalls, ih _ (fun x hx => h x (List.mem_cons_of_mem _ hx))]
    cases cs with
    | nil =>
      cases c
      · simpa [Call.run] using IsPaused_Pause b
      · simpa [Call.run] using IsPaused_Resume b
      · exact absurd rfl (h .stop (List.mem_cons_self _ _))
    | cons c2 cs2 =>
      rw [List.getLast?_cons_cons]
      cases hl : (c2 :: cs2).getLast? with
      | none => simp at hl
      | some x => cases x <;> rfl

theorem callLog_ok (b : Service) (calls : List Call) (h : ∀ c ∈ calls, c ≠ Call.stop) :
    ∀ r ∈ callLog b calls, r.1 = .ok () := by
  induction calls generalizing b with
  | nil => intro r hr; simp [callLog] at hr
  | cons c cs ih =>
    intro r hr
    rw [callLog, List.mem_cons] at hr
    rcases hr with rfl | hr
    · exact Call.run_ok c b (h c (List.mem_cons_self _ _))
    · exact ih _ (fun x hx => h x (List.mem_cons_of_mem _ hx)) r hr

/-- The method `setupParameters` does not touch the pause channel. -/
theorem setupParameters_pause (d : Deps) (b : Service) (cfg : ServiceConfig) :
    (setupParameters d b cfg).2.pause = b.pause := by
  unfold setupParameters
  dsimp only
  repeat' split
  all_goals rfl

/-- A service that `NewService` returns has an open pause channel. -/
theorem NewService_not_paused (d : Deps) (cfg : ServiceConfig) (b : Service)
    (h : NewService d cfg = .ok b) : b.pause = { id := 0, closed := false } := by
  unfold NewService at h
  dsimp only at h
  split at h
  · simp at h
  · split at h
    · simp at h
    · split at h
      · simp at h
      · split at h
        · simp at h
        · split at h
          · simp at h
          · split at h
            · rename_i hsetup
              simp only [Result.ok.injEq] at h
              subst h
              have := congrArg (fun x => x.2.pause) hsetup
              simp only at this
              rw [← this, setupParameters_pause]
            · simp at h
            · simp at h
            · simp at h

/-- C6: on a service returned by `NewService`, for every sequence of `Pause`
and `Resume` calls, every call returns nil, and `IsPaused` afterwards is true
exactly when the last call of the sequence was `Pause` (false for the empty
sequence); in the state reached, a second `Pause` after a `Pause` closes no
channel, a `Resume` on a service that is not paused changes nothing and spawns
nothing, and so does a second `Resume` after a `Resume`. -/
theorem Pause_Resume_consistent (d : Deps) (cfg : ServiceConfig) (b : Service)
    (calls : List Call) (hnew : NewService d cfg = .ok b) (hcalls : ∀ c ∈ calls, c ≠ Call.stop) :
    (∀ r ∈ callLog b calls, r.1 = .ok ()) ∧
    IsPaused (runCalls b calls) = decide (calls.getLast? = some .pause) ∧
    Pause (Pause (runCalls b calls)).2.1 = (.ok (), (Pause (runCalls b calls)).2.1, []) ∧
    (IsPaused (runCalls b calls) = false →
      Resume (runCalls b calls) = (.ok (), runCalls b calls, [])) ∧
    Resume (Resume (runCalls b calls)).2.1 = (.ok (), (Resume (runCalls b calls)).2.1, []) := by
  refine ⟨callLog_ok b calls hcalls, ?_, ?_, ?_, ?_⟩
  · rw [IsPaused_runCalls b calls hcalls]
    cases hl : calls.getLast? with
    | none =>
      have hp := NewService_not_paused d cfg b hnew
      simp [IsPaused, hp]
    | some x => cases x <;> simp
  · have h := IsPaused_Pause (runCalls b calls)
    generalize (Pause (runCalls b calls)).2.1 = x at h
    simp [Pause, h]
  · intro h
    simp [Resume, h]
  · have h := IsPaused_Resume (runCalls b calls)
    generalize (Resume (runCalls b calls)).2.1 = x at h
    simp [Resume, h]

theorem Pause_Resume_consistent_witness :
    NewService demoDeps demoConfig = .ok demoService ∧
    IsPaused (runCalls demoService [.pause, .pause, .resume]) =
      decide ([Call.pause, .pause, .resume].getLast? = some .pause) :=
  ⟨rfl, (Pause_Resume_consistent demoDeps demoConfig demoService [.pause, .pause, .resume] rfl
    (by decide)).2.1⟩

/-! ### Handling a slot without a trie state -/

/-- C7 evaluated: slot 5 is a key of `slotToProof` and `TrieState` returns
`(nil, nil)`; `handleSlot` then returns nil, having built no block and called
`HandleBlockProduced` not at all. -/
theorem handleSlot_nil_trie_state_returns_nil :
    handleSlot demoDeps
      { demoService with
        slotToProof := [(5, { output := [], proof := [] })]
        storageState := some emptyStorageState } 5100000000 0 5 =
      (.ok (), [.bestBlockHeader, .storageLock, .trieState 7, .storageUnlock]) := by
  decide

/-! ### The authority index -/

/-- The search loop of `getAuthorityIndex` finds nothing exactly when no entry
has the key. -/
theorem findAuthority_eq_none (pub : PublicKey) (A : List Authority) (k : Nat) :
    findAuthority pub A k = none ↔ ∀ a ∈ A, a.Key.Encode ≠ pub.Encode := by
  induction A generalizing k with
  | nil => simp [findAuthority]
  | cons a rest ih =>
    unfold findAuthority
    by_cases h : pub.Encode = a.Key.Encode
    · simp [h]
    · simp only [h, if_false, ih, List.mem_cons, forall_eq_or_imp]
      constructor
      · intro hr
        exact ⟨fun hc => h hc.symm, hr⟩
      · intro hr
        exact hr.2

/-- What the search loop of `getAuthorityIndex` returns is the first position
whose entry has the key, counted from the starting index `k`. -/
theorem findAuthority_eq_some (pub : PublicKey) (A : List Authority) (k i : Nat)
    (h : findAuthority pub A k = some i) :
    k ≤ i ∧ i - k < A.length ∧ (∃ a, A[i - k]? = some a ∧ a.Key.Encode = pub.Encode) ∧
      ∀ j a, j < i - k → A[j]? = some a → a.Key.Encode ≠ pub.Encode := by
  induction A generalizing k with
  | nil => simp [findAuthority] at h
  | cons a rest ih =>
    unfold findAuthority at h
    by_cases hm : pub.Encode = a.Key.Encode
    · simp only [hm, if_true, Option.some.injEq] at h
      subst h
      refine ⟨le_refl _, by simp, ⟨a, by simp, hm.symm⟩, ?_⟩
      intro j x hj
      simp at hj
    · simp only [hm, if_false] at h
      obtain ⟨h1, h2, ⟨x, hx, hxm⟩, h4⟩ := ih (k + 1) h
      have e : i - k = (i - (k + 1)) + 1 := by omega
      refine ⟨by omega, ?_, ⟨x, ?_, hxm⟩, ?_⟩
      · rw [e, List.length_cons]; omega
      · rw [e, List.getElem?_cons_succ]; exact hx
      · intro j y hj hy
        cases j with
        | zero =>
          simp only [List.getElem?_cons_zero, Option.some.injEq] at hy
          subst hy
          exact fun hc => hm hc.symm
        | succ j =>
          rw [List.getElem?_cons_succ] at hy
          exact h4 j y (by omega) hy

/-- C8: for a service that is an authority (with its keypair) and an authority
list (of at most `2 ^ 32` entries, so that `uint32(i)` is `i`),
`getAuthorityIndex` succeeds exactly when some entry has the public key of the
service; it then returns the smallest index whose entry has that key, an index
below the length of the list; and when no entry has the key it fails with the
key-not-in-authority-data error. -/
theorem getAuthorityIndex_spec (b : Service) (kp : Keypair) (A : List Authority)
    (hauth : b.authority = true) (hkp : b.keypair = some kp) (hlen : A.length ≤ 2 ^ 32) :
    ((getAuthorityIndex b A).isOk = true ↔ ∃ a ∈ A, a.Key.Encode = kp.Public.Encode) ∧
    (∀ i, getAuthorityIndex b A = .ok i →
      i < A.length ∧ (∃ a, A[i]? = some a ∧ a.Key.Encode = kp.Public.Encode) ∧
        ∀ j a, j < i → A[j]? = some a → a.Key.Encode ≠ kp.Public.Encode) ∧
    ((∀ a ∈ A, a.Key.Encode ≠ kp.Public.Encode) →
      getAuthorityIndex b A = .error .errKeyNotInAuthorityData) := by
  have hdef : getAuthorityIndex b A =
      match findAuthority kp.Public A 0 with
      | some i => .ok (i % 2 ^ 32)
      | none => .error .errKeyNotInAuthorityData := by
    simp [getAuthorityIndex, hauth, hkp]
  refine ⟨?_, ?_, ?_⟩
  · rw [hdef]
    cases hf : findAuthority kp.Public A 0 with
    | none =>
      have := (findAuthority_eq_none kp.Public A 0).1 hf
      simp only [Result.isOk, Bool.false_eq_true, false_iff, not_exists, not_and]
      exact this
    | some i =>
      obtain ⟨_, h2, ⟨a, ha, ham⟩, _⟩ := findAuthority_eq_some kp.Public A 0 i hf
      simp only [Result.isOk, true_iff]
      exact ⟨a, List.getElem?_mem ha, ham⟩
  · intro i hi
    rw [hdef] at hi
    cases hf : findAuthority kp.Public A 0 with
    | none => simp [hf] at hi
    | some k =>
      obtain ⟨_, h2, h3, h4⟩ := findAuthority_eq_some kp.Public A 0 k hf
      simp only [hf, Result.ok.injEq] at hi
      simp only [Nat.sub_zero] at h2 h3 h4
      have hk : k % 2 ^ 32 = k := Nat.mod_eq_of_lt (by omega)
      rw [hk] at hi
      subst hi
      exact ⟨h2, h3, h4⟩
  · intro hno
    rw [hdef, (findAuthority_eq_none kp.Public A 0).2 hno]

theorem getAuthorityIndex_spec_witness :
    getAuthorityIndex demoService
        [{ Key := bobKey, Weight := 1 }, { Key := aliceKey, Weight := 1 },
         { Key := aliceKey, Weight := 2 }] = .ok 1 ∧
    (1 : Nat) < 3 :=
  ⟨by decide,
   ((getAuthorityIndex_spec demoService { pub := aliceKey }
      [{ Key := bobKey, Weight := 1 }, { Key := aliceKey, Weight := 1 },
       { Key := aliceKey, Weight := 2 }] rfl rfl (by decide)).2.1 1 (by decide)).1⟩

/-! ### Construction -/

/-- The checks that `NewService` does make: an authority without a keypair, a
nil `BlockState`, a nil `EpochState` and a nil `BlockImportHandler` are
refused. -/
theorem NewService_rejects (d : Deps) (cfg : ServiceConfig)
    (h : (cfg.Keypair = none ∧ cfg.Authority = true) ∨ cfg.BlockState.isNone = true ∨
      cfg.EpochState.isNone = true ∨ cfg.BlockImportHandler.isNone = true) :
    (NewService d cfg).isError = true := by
  unfold NewService
  dsimp only
  split
  · rfl
  · split
    · rfl
    · split
      · rfl
      · split
        · rfl
        · rename_i h1 h2 _ es hes h3
          exfalso
          rcases h with ⟨hk, ha⟩ | h | h | h
          · exact h1 (by simp [hk, ha])
          · exact h2 h
          · simp [hes] at h
          · exact h3 h

/-- C9 evaluated: the configuration of Alice without a storage state is
accepted by `NewService`; the service it returns has a nil storage state, and
`initiate` on it logs the nil-storage-state error and never enters the loop. -/
theorem NewService_accepts_nil_StorageState :
    (NewService demoDeps noStorageConfig).isOk = true ∧
    (NewService demoDeps noStorageConfig).toOption.map
      (fun b => (b.storageState.isNone, (initiate demoDeps b firstRun).1,
        (initiate demoDeps b firstRun).2.2)) =
      some (true, .ok (), [.logError .errNilStorageState]) := by
  decide

/-- The method `setupParameters` leaves the flags and the keypair alone. -/
theorem setupParameters_fields (d : Deps) (b : Service) (cfg : ServiceConfig) :
    (setupParameters d b cfg).2.authority = b.authority ∧
    (setupParameters d b cfg).2.keypair = b.keypair := by
  unfold setupParameters
  dsimp only
  repeat' split
  all_goals exact ⟨rfl, rfl⟩

/-- When the service is an authority whose key is in no entry of the latest
epoch data, `setupParameters` does not succeed. -/
theorem setupParameters_stranger (d : Deps) (b : Service) (cfg : ServiceConfig)
    (es : EpochState) (kp : Keypair) (data : EpochData)
    (hes : b.epochState = some es) (hkp : b.keypair = some kp) (hb : b.authority = true)
    (hcfg : cfg.Authority = true) (hdata : es.GetLatestEpochData = .ok data)
    (hnot : ∀ a ∈ data.Authorities, a.Key.Encode ≠ kp.Public.Encode) :
    ∃ e, (setupParameters d b cfg).1 = .error e := by
  unfold setupParameters
  simp only [hes, hdata]
  split
  · exact ⟨_, rfl⟩
  · split
    · exact ⟨_, rfl⟩
    · split
      · exact ⟨_, rfl⟩
      · split
        · exact ⟨_, rfl⟩
        · simp only [hcfg, Bool.not_true, Bool.false_eq_true, if_false]
          have hidx : ∀ (x : Service), x.authority = true → x.keypair = some kp →
              getAuthorityIndex x data.Authorities = .error .errKeyNotInAuthorityData := by
            intro x hx1 hx2
            simp [getAuthorityIndex, hx1, hx2, (findAuthority_eq_none kp.Public _ 0).2 hnot]
          rw [hidx]
          · exact ⟨_, rfl⟩
          · exact hb
          · exact hkp

/-- The result of `NewService`, when it is not one of the four refusals, is that
of `setupParameters` on the fresh service. -/
theorem NewService_ok (d : Deps) (cfg : ServiceConfig) (b : Service)
    (h : NewService d cfg = .ok b) :
    b.authority = cfg.Authority ∧ b.keypair = cfg.Keypair := by
  unfold NewService at h
  dsimp only at h
  split at h
  · simp at h
  · split at h
    · simp at h
    · split at h
      · simp at h
      · split at h
        · simp at h
        · split at h
          · simp at h
          · split at h
            · rename_i hsetup
              simp only [Result.ok.injEq] at h
              subst h
              have h1 := congrArg (fun x => x.2.authority) hsetup
              have h2 := congrArg (fun x => x.2.keypair) hsetup
              simp only at h1 h2
              rw [← h1, ← h2]
              exact setupParameters_fields d _ cfg
            · simp at h
            · simp at h
            · simp at h

/-- C10 as amended: when the keypair of the configuration is in no entry of the
authorities of the latest epoch data, then, if the configuration says
`Authority`, `NewService` returns an error and no service; and if it does not,
every service that `NewService` returns starts with success, without waiting
for a block and without spawning the producer loop (`Start` does nothing). -/
theorem NewService_key_not_in_authorities (d : Deps) (cfg : ServiceConfig) (es : EpochState)
    (kp : Keypair) (data : EpochData) (hes : cfg.EpochState = some es)
    (hkp : cfg.Keypair = some kp) (hdata : es.GetLatestEpochData = .ok data)
    (hnot : ∀ a ∈ data.Authorities, a.Key.Encode ≠ kp.Public.Encode) :
    (cfg.Authority = true → ∃ e, NewService d cfg = .error e) ∧
    (cfg.Authority = false →
      ∀ b, NewService d cfg = .ok b → ∀ evs, Start b evs = (.ok (), [])) := by
  constructor
  · intro hauth
    unfold NewService
    dsimp only
    split
    · exact ⟨_, rfl⟩
    · split
      · exact ⟨_, rfl⟩
      · split
        · exact ⟨_, rfl⟩
        · split
          · exact ⟨_, rfl⟩
          · split
            · exact ⟨_, rfl⟩
            · rename_i es2 hes2 _ _ _ _
              obtain ⟨e, he⟩ := setupParameters_stranger d
                { cancelled := false, authority := cfg.Authority, dev := cfg.IsDev,
                  lead := cfg.Lead, blockState := cfg.BlockState,
                  storageState := cfg.StorageState, transactionState := cfg.TransactionState,
                  epochState := cfg.EpochState, epochLength := 0,
                  blockImportHandler := cfg.BlockImportHandler, keypair := cfg.Keypair,
                  slotDuration := 0, epochData := none, slotToProof := [],
                  pause := { id := 0, closed := false }, chanSeq := 1 }
                cfg es kp data hes hkp hauth hauth hdata hnot
              split
              · rename_i hs
                rw [hs] at he
                simp at he
              · rename_i hs
                exact ⟨_, rfl⟩
              · rename_i hs
                rw [hs] at he
                simp at he
              · rename_i hs
                rw [hs] at he
                simp at he
  · intro hauth b hb evs
    have := (NewService_ok d cfg b hb).1
    simp [Start, this, hauth]

theorem NewService_key_not_in_authorities_witness :
    (∃ e, NewService demoDeps strangerConfig = .error e) ∧
    NewService demoDeps observerConfig = .ok observerService ∧
    Start observerService [.timer] = (.ok (), []) :=
  ⟨(NewService_key_not_in_authorities demoDeps strangerConfig demoEpochState { pub := bobKey }
      { Randomness := [], Authorities := [{ Key := aliceKey, Weight := 1 }] } rfl rfl rfl
      (by decide)).1 rfl,
   rfl,
   (NewService_key_not_in_authorities demoDeps observerConfig demoEpochState { pub := bobKey }
      { Randomness := [], Authorities := [{ Key := aliceKey, Weight := 1 }] } rfl rfl rfl
      (by decide)).2 rfl observerService rfl [.timer]⟩

/-- C10 fails for a configuration that says `Authority`: for Bob, whose key is
not in the authority set, `NewService` returns the key-not-in-authority-data
error, so an error is surfaced and there is no service to start. -/
theorem NewService_stranger_authority_fails :
    (NewService demoDeps strangerConfig).err? = some .errKeyNotInAuthorityData ∧
    (NewService demoDeps strangerConfig).toOption.isNone = true := by
  decide

/-! ### The events of the producer loop -/

theorem handledSlots_append (t1 t2 : List Event) :
    handledSlots (t1 ++ t2) = handledSlots t1 ++ handledSlots t2 :=
  List.filterMap_append _ _ _

theorem submittedSlots_append (t1 t2 : List Event) :
    submittedSlots (t1 ++ t2) = submittedSlots t1 ++ submittedSlots t2 :=
  List.filterMap_append _ _ _

theorem initiatedEpochs_append (t1 t2 : List Event) :
    initiatedEpochs (t1 ++ t2) = initiatedEpochs t1 ++ initiatedEpochs t2 :=
  List.filterMap_append _ _ _


/-- The events of `handleSlot`: no call of `handleSlot`, of `initiateEpoch` or
of `Pause`, and at most one block submitted, for its own epoch and slot. -/
theorem handleSlot_events (d : Deps) (b : Service) (now : Int) (epoch slotNum : Nat) :
    handledSlots (handleSlot d b now epoch slotNum).2 = [] ∧
    initiatedEpochs (handleSlot d b now epoch slotNum).2 = [] ∧
    Event.pauseForSync ∉ (handleSlot d b now epoch slotNum).2 ∧
    (submittedSlots (handleSlot d b now epoch slotNum).2 = [] ∨
      submittedSlots (handleSlot d b now epoch slotNum).2 = [(epoch, slotNum)]) := by
  unfold handleSlot
  by_cases hp : hasProof b slotNum = true
  swap
  · simp [hp, handledSlots, submittedSlots, initiatedEpochs]
  simp only [hp, Bool.not_true, Bool.false_eq_true, if_false]
  cases b.blockState with
  | none => simp [handledSlots, submittedSlots, initiatedEpochs]
  | some bs =>
    dsimp only
    rcases bs.BestBlockHeader now with ⟨_ | ph, _ | e⟩ <;> dsimp only <;>
      try (simp [handledSlots, submittedSlots, initiatedEpochs, Event.handled?,
        Event.submitted?, Event.initiated?]; done)
    cases ph.DeepCopy with
    | error e => simp [handledSlots, submittedSlots, initiatedEpochs, Event.handled?,
        Event.submitted?, Event.initiated?]
    | ok parent =>
      dsimp only
      cases b.storageState with
      | none => simp [handledSlots, submittedSlots, initiatedEpochs, Event.handled?,
          Event.submitted?, Event.initiated?]
      | some ss =>
        dsimp only
        rcases ss.TrieState now parent.StateRoot with ⟨_ | ts, _ | e⟩ <;> dsimp only <;>
          try (simp [handledSlots, submittedSlots, initiatedEpochs, Event.handled?,
            Event.submitted?, Event.initiated?]; done)
        cases bs.GetRuntime now parent.Hash with
        | error e => simp [handledSlots, submittedSlots, initiatedEpochs, Event.handled?,
            Event.submitted?, Event.initiated?]
        | ok rt =>
          dsimp only
          generalize d.buildBlock _ _ _ = built
          cases built with
          | error e => simp [handledSlots, submittedSlots, initiatedEpochs, Event.handled?,
              Event.submitted?, Event.initiated?]
          | ok block =>
            dsimp only
            cases b.blockImportHandler with
            | none => simp [handledSlots, submittedSlots, initiatedEpochs, Event.handled?,
                Event.submitted?, Event.initiated?]
            | some handler =>
              dsimp only
              cases handler.HandleBlockProduced now block ts <;>
                simp [handledSlots, submittedSlots, initiatedEpochs, Event.handled?,
                  Event.submitted?, Event.initiated?]
/-- The events of the slot loop. -/
theorem slotLoop_events (d : Deps) (epoch startSlot count : Nat) (t0 dur epochDue : Int) :
    ∀ (ticks : List Tick) (i : Nat) (prev : Int) (b : Service),
      (∃ k, i + k ≤ max i count ∧
        handledSlots (slotLoop d epoch startSlot count t0 dur epochDue i prev b ticks).2.2 =
          (List.range' i k).map (fun j => (epoch, addU64 startSlot j))) ∧
      initiatedEpochs (slotLoop d epoch startSlot count t0 dur epochDue i prev b ticks).2.2 = [] ∧
      Event.pauseForSync ∉ (slotLoop d epoch startSlot count t0 dur epochDue i prev b ticks).2.2 ∧
      (submittedSlots (slotLoop d epoch startSlot count t0 dur epochDue i prev b ticks).2.2).Sublist
        (handledSlots (slotLoop d epoch startSlot count t0 dur epochDue i prev b ticks).2.2) := by
  intro ticks
  induction ticks with
  | nil =>
    intro i prev b
    unfold slotLoop
    by_cases hc : count ≤ i
    · simp only [hc, if_true]
      exact ⟨⟨0, by simp, rfl⟩, rfl, by simp, List.Sublist.refl _⟩
    · simp only [hc, if_false]
      exact ⟨⟨0, by simp, rfl⟩, rfl, by simp, List.Sublist.refl _⟩
  | cons t rest ih =>
    intro i prev b
    unfold slotLoop
    by_cases hc : count ≤ i
    · simp only [hc, if_true]
      exact ⟨⟨0, by simp, rfl⟩, rfl, by simp, List.Sublist.refl _⟩
    · simp only [hc, if_false]
      by_cases ha : (!t.allowed prev b (runCalls b t.calls) (slotTimerDue t0 dur i) epochDue) = true
      · rw [if_pos ha]
        exact ⟨⟨0, by simp, rfl⟩, rfl, by simp, List.Sublist.refl _⟩
      rw [if_neg ha]
      generalize t.leave = now
      cases t.ev with
      | ctxDone => exact ⟨⟨0, by simp, rfl⟩, rfl, by simp, List.Sublist.refl _⟩
      | pause => exact ⟨⟨0, by simp, rfl⟩, rfl, by simp, List.Sublist.refl _⟩
      | epochTimer => exact ⟨⟨0, by simp, rfl⟩, rfl, by simp, List.Sublist.refl _⟩
      | slotDone =>
        dsimp only
        obtain ⟨h1, h2, h3, h4⟩ := handleSlot_events d (runCalls b t.calls) now epoch (addU64 startSlot i)
        rcases hhs : handleSlot d (runCalls b t.calls) now epoch (addU64 startSlot i) with ⟨r, tr⟩
        rw [hhs] at h1 h2 h3 h4
        dsimp only at h1 h2 h3 h4
        have hsub : (submittedSlots tr).Sublist [(epoch, addU64 startSlot i)] := by
          rcases h4 with h | h
          · rw [h]; exact List.nil_sublist _
          · rw [h]
        have hone : handledSlots (Event.handleSlot epoch (addU64 startSlot i) :: tr) =
            [(epoch, addU64 startSlot i)] := by
          change handledSlots ([Event.handleSlot epoch (addU64 startSlot i)] ++ tr) = _
          rw [handledSlots_append, h1]
          rfl
        have hstop : (∃ k, i + k ≤ max i count ∧
              handledSlots (Event.handleSlot epoch (addU64 startSlot i) :: tr) =
                (List.range' i k).map (fun j => (epoch, addU64 startSlot j))) ∧
            initiatedEpochs (Event.handleSlot epoch (addU64 startSlot i) :: tr) = [] ∧
            Event.pauseForSync ∉ (Event.handleSlot epoch (addU64 startSlot i) :: tr) ∧
            (submittedSlots (Event.handleSlot epoch (addU64 startSlot i) :: tr)).Sublist
              (handledSlots (Event.handleSlot epoch (addU64 startSlot i) :: tr)) := by
          refine ⟨⟨1, ?_, ?_⟩, ?_, ?_, ?_⟩
          · rw [Nat.max_def]; split <;> omega
          · rw [hone]; rfl
          · change initiatedEpochs ([Event.handleSlot epoch (addU64 startSlot i)] ++ tr) = _
            rw [initiatedEpochs_append, h2]; rfl
          · simp [h3]
          · rw [hone]
            change (submittedSlots ([Event.handleSlot epoch (addU64 startSlot i)] ++ tr)).Sublist _
            rw [submittedSlots_append]
            exact hsub
        obtain ⟨⟨k, hk1, hk2⟩, hi2, hi3, hi4⟩ := ih (i + 1) now (runCalls b t.calls)
        have hgo : (∃ k, i + k ≤ max i count ∧
              handledSlots (Event.handleSlot epoch (addU64 startSlot i) ::
                  tr ++ (slotLoop d epoch startSlot count t0 dur epochDue (i + 1) now (runCalls b t.calls) rest).2.2) =
                (List.range' i k).map (fun j => (epoch, addU64 startSlot j))) ∧
            initiatedEpochs (Event.handleSlot epoch (addU64 startSlot i) ::
                tr ++ (slotLoop d epoch startSlot count t0 dur epochDue (i + 1) now (runCalls b t.calls) rest).2.2) = [] ∧
            Event.pauseForSync ∉ (Event.handleSlot epoch (addU64 startSlot i) ::
                tr ++ (slotLoop d epoch startSlot count t0 dur epochDue (i + 1) now (runCalls b t.calls) rest).2.2) ∧
            (submittedSlots (Event.handleSlot epoch (addU64 startSlot i) ::
                tr ++ (slotLoop d epoch startSlot count t0 dur epochDue (i + 1) now (runCalls b t.calls) rest).2.2)).Sublist
              (handledSlots (Event.handleSlot epoch (addU64 startSlot i) ::
                tr ++ (slotLoop d epoch startSlot count t0 dur epochDue (i + 1) now (runCalls b t.calls) rest).2.2)) := by
          have e1 : handledSlots (Event.handleSlot epoch (addU64 startSlot i) ::
                tr ++ (slotLoop d epoch startSlot count t0 dur epochDue (i + 1) now (runCalls b t.calls) rest).2.2) =
              (epoch, addU64 startSlot i) ::
                handledSlots (slotLoop d epoch startSlot count t0 dur epochDue (i + 1) now (runCalls b t.calls) rest).2.2 := by
            rw [handledSlots_append, hone]; rfl
          have e2 : submittedSlots (Event.handleSlot epoch (addU64 startSlot i) ::
                tr ++ (slotLoop d epoch startSlot count t0 dur epochDue (i + 1) now (runCalls b t.calls) rest).2.2) =
              submittedSlots tr ++
                submittedSlots (slotLoop d epoch startSlot count t0 dur epochDue (i + 1) now (runCalls b t.calls) rest).2.2 := by
            rw [submittedSlots_append]
            change submittedSlots ([Event.handleSlot epoch (addU64 startSlot i)] ++ tr) ++ _ = _
            rw [submittedSlots_append]; rfl
          refine ⟨⟨k + 1, ?_, ?_⟩, ?_, ?_, ?_⟩
          · rw [Nat.max_def] at hk1 ⊢
            split at hk1 <;> split <;> omega
          · rw [e1, hk2, List.range'_succ, List.map_cons]
          · rw [initiatedEpochs_append, hi2]
            change initiatedEpochs ([Event.handleSlot epoch (addU64 startSlot i)] ++ tr) ++ [] = _
            rw [initiatedEpochs_append, h2]; rfl
          · simp [h3, hi3]
          · rw [e1, e2]
            exact List.Sublist.append hsub hi4
        cases r with
        | panic p => exact hstop
        | blocked => exact hstop
        | ok v => exact hgo
        | error e => exact hgo
/-! ### Settings that the loop and the lifecycle calls leave alone -/

theorem Call.run_settings (c : Call) (b : Service) :
    (c.run b).2.1.dev = b.dev ∧ (c.run b).2.1.epochLength = b.epochLength ∧
      (c.run b).2.1.slotDuration = b.slotDuration ∧ (c.run b).2.1.epochState = b.epochState := by
  cases c
  · simp only [Call.run, Pause]; split <;> exact ⟨rfl, rfl, rfl, rfl⟩
  · simp only [Call.run, Resume]; split <;> exact ⟨rfl, rfl, rfl, rfl⟩
  · simp only [Call.run, Stop]; split
    · exact ⟨rfl, rfl, rfl, rfl⟩
    · split <;> exact ⟨rfl, rfl, rfl, rfl⟩

theorem runCalls_settings (b : Service) (calls : List Call) :
    (runCalls b calls).dev = b.dev ∧ (runCalls b calls).epochLength = b.epochLength ∧
      (runCalls b calls).slotDuration = b.slotDuration ∧
      (runCalls b calls).epochState = b.epochState := by
  induction calls generalizing b with
  | nil => exact ⟨rfl, rfl, rfl, rfl⟩
  | cons c cs ih =>
    rw [runCalls]
    obtain ⟨h1, h2, h3, h4⟩ := ih (c.run b).2.1
    obtain ⟨g1, g2, g3, g4⟩ := Call.run_settings c b
    exact ⟨h1.trans g1, h2.trans g2, h3.trans g3, h4.trans g4⟩

/-- The method `waitForEpochStart` changes no setting and records only its query
of the epoch store. -/
theorem waitForEpochStart_events (b : Service) (epoch : Nat) (waitNow : Int)
    (wake : Option (List Call × WaitEv)) :
    ((waitForEpochStart b epoch waitNow wake).2.1.dev = b.dev ∧
      (waitForEpochStart b epoch waitNow wake).2.1.epochLength = b.epochLength ∧
      (waitForEpochStart b epoch waitNow wake).2.1.slotDuration = b.slotDuration ∧
      (waitForEpochStart b epoch waitNow wake).2.1.epochState = b.epochState) ∧
    ((waitForEpochStart b epoch waitNow wake).2.2 = [] ∨
      (waitForEpochStart b epoch waitNow wake).2.2 = [.getStartSlotForEpoch epoch]) := by
  unfold waitForEpochStart
  dsimp only
  repeat' split
  all_goals first
    | exact ⟨⟨rfl, rfl, rfl, rfl⟩, Or.inl rfl⟩
    | exact ⟨⟨rfl, rfl, rfl, rfl⟩, Or.inr rfl⟩
    | exact ⟨runCalls_settings _ _, Or.inr rfl⟩

theorem two_pow_64_int : (2 : Int) ^ 64 = 18446744073709551616 := by norm_num

theorem two_pow_63_int : (2 : Int) ^ 63 = 9223372036854775808 := by norm_num

theorem two_pow_64_nat : (2 : Nat) ^ 64 = 18446744073709551616 := by norm_num

theorem two_pow_63_nat : (2 : Nat) ^ 63 = 9223372036854775808 := by norm_num

theorem wrapInt64_lt (x : Int) : wrapInt64 x < 9223372036854775808 := by
  unfold wrapInt64
  dsimp only
  rw [two_pow_64_int, two_pow_63_int]
  have h1 : x % 18446744073709551616 < 18446744073709551616 :=
    Int.emod_lt_of_pos _ (by norm_num)
  split
  · assumption
  · omega

theorem wrapInt64_toNat_lt (x : Int) : (wrapInt64 x).toNat < 2 ^ 63 := by
  rw [two_pow_63_nat]
  have := wrapInt64_lt x
  omega

/-- The events of the part of an epoch iteration that follows the catch-up
test. -/
theorem slotPhase_events (d : Deps) (b : Service) (epoch startSlot intoEpoch : Nat)
    (st : EpochStep) :
    (∃ k, k < 2 ^ 63 ∧
      handledSlots (slotPhase d b epoch startSlot intoEpoch st).2.2 =
        (List.range' 0 k).map (fun j => (epoch, addU64 startSlot j))) ∧
    initiatedEpochs (slotPhase d b epoch startSlot intoEpoch st).2.2 = [] ∧
    Event.pauseForSync ∉ (slotPhase d b epoch startSlot intoEpoch st).2.2 ∧
    (submittedSlots (slotPhase d b epoch startSlot intoEpoch st).2.2).Sublist
      (handledSlots (slotPhase d b epoch startSlot intoEpoch st).2.2) := by
  have hnil : (∃ k, k < 2 ^ 63 ∧
      handledSlots [] = (List.range' 0 k).map (fun j => (epoch, addU64 startSlot j))) ∧
      initiatedEpochs [] = [] ∧ Event.pauseForSync ∉ ([] : List Event) ∧
      (submittedSlots []).Sublist (handledSlots []) :=
    ⟨⟨0, by norm_num, rfl⟩, rfl, by simp, List.Sublist.refl _⟩
  have hone : ∀ e, (∃ k, k < 2 ^ 63 ∧
      handledSlots [Event.getStartSlotForEpoch e] =
        (List.range' 0 k).map (fun j => (epoch, addU64 startSlot j))) ∧
      initiatedEpochs [Event.getStartSlotForEpoch e] = [] ∧
      Event.pauseForSync ∉ [Event.getStartSlotForEpoch e] ∧
      (submittedSlots [Event.getStartSlotForEpoch e]).Sublist
        (handledSlots [Event.getStartSlotForEpoch e]) :=
    fun e => ⟨⟨0, by norm_num, rfl⟩, rfl, by simp, List.Sublist.refl _⟩
  unfold slotPhase
  cases b.epochState with
  | none => exact hnil
  | some es =>
    dsimp only
    cases es.GetStartSlotForEpoch (addU64 epoch 1) with
    | error e => exact hone _
    | ok nextStart =>
      dsimp only
      by_cases hn : wrapInt64 (subU64 b.epochLength intoEpoch) < 0
      · rw [if_pos hn]
        exact hone _
      · rw [if_neg hn]
        obtain ⟨⟨k, hk1, hk2⟩, h2, h3, h4⟩ := slotLoop_events d epoch startSlot
          (wrapInt64 (subU64 b.epochLength intoEpoch)).toNat st.now b.slotDuration
          (epochTimerDue st.now (getSlotStartTime nextStart b.slotDuration)) st.ticks 0 st.now b
        have hk : k < 2 ^ 63 := by
          have h0 : k ≤ (wrapInt64 (subU64 b.epochLength intoEpoch : Int)).toNat := by
            simpa using hk1
          exact lt_of_le_of_lt h0 (wrapInt64_toNat_lt _)
        rcases hsl : slotLoop d epoch startSlot
          (wrapInt64 (subU64 b.epochLength intoEpoch)).toNat st.now b.slotDuration
          (epochTimerDue st.now (getSlotStartTime nextStart b.slotDuration)) 0 st.now b
          st.ticks with ⟨x, b1, tr⟩
        rw [hsl] at hk2 h2 h3 h4
        dsimp only at hk2 h2 h3 h4
        have e1 : ∀ (e n : Nat) (post : List Event), handledSlots post = [] →
            handledSlots (Event.getStartSlotForEpoch e :: Event.makeSlotTimers n :: tr ++ post) =
              handledSlots tr := by
          intro e n post hp
          change handledSlots ([Event.getStartSlotForEpoch e, Event.makeSlotTimers n] ++ tr ++ post) = _
          rw [handledSlots_append, handledSlots_append, hp]
          simp [handledSlots, Event.handled?]
        have e2 : ∀ (e n : Nat) (post : List Event), submittedSlots post = [] →
            submittedSlots (Event.getStartSlotForEpoch e :: Event.makeSlotTimers n :: tr ++ post) =
              submittedSlots tr := by
          intro e n post hp
          change submittedSlots ([Event.getStartSlotForEpoch e, Event.makeSlotTimers n] ++ tr ++ post) = _
          rw [submittedSlots_append, submittedSlots_append, hp]
          simp [submittedSlots, Event.submitted?]
        have e3 : ∀ (e n : Nat) (post : List Event), initiatedEpochs post = [] →
            initiatedEpochs (Event.getStartSlotForEpoch e :: Event.makeSlotTimers n :: tr ++ post) =
              [] := by
          intro e n post hp
          change initiatedEpochs ([Event.getStartSlotForEpoch e, Event.makeSlotTimers n] ++ tr ++ post) = _
          rw [initiatedEpochs_append, initiatedEpochs_append, hp, h2]
          simp [initiatedEpochs, Event.initiated?]
        have key : ∀ (e n : Nat) (post : List Event), handledSlots post = [] →
            submittedSlots post = [] → initiatedEpochs post = [] → Event.pauseForSync ∉ post →
            (∃ k, k < 2 ^ 63 ∧
              handledSlots (Event.getStartSlotForEpoch e :: Event.makeSlotTimers n :: tr ++ post) =
                (List.range' 0 k).map (fun j => (epoch, addU64 startSlot j))) ∧
            initiatedEpochs (Event.getStartSlotForEpoch e :: Event.makeSlotTimers n :: tr ++ post) = [] ∧
            Event.pauseForSync ∉ (Event.getStartSlotForEpoch e :: Event.makeSlotTimers n :: tr ++ post) ∧
            (submittedSlots (Event.getStartSlotForEpoch e :: Event.makeSlotTimers n :: tr ++ post)).Sublist
              (handledSlots (Event.getStartSlotForEpoch e :: Event.makeSlotTimers n :: tr ++ post)) := by
          intro e n post p1 p2 p3 p4
          refine ⟨⟨k, hk, ?_⟩, e3 e n post p3, ?_, ?_⟩
          · rw [e1 e n post p1, hk2]
          · simp [h3, p4]
          · rw [e1 e n post p1, e2 e n post p2]
            exact h4
        cases x with
        | exit r =>
          dsimp only
          have := key (addU64 epoch 1) (subU64 b.epochLength intoEpoch) [] rfl rfl rfl (by simp)
          simpa using this
        | over =>
          dsimp only
          cases st.incrementEpoch with
          | error e =>
            exact key (addU64 epoch 1) (subU64 b.epochLength intoEpoch) [.incrementEpoch]
              rfl rfl rfl (by simp)
          | ok next =>
            exact key (addU64 epoch 1) (subU64 b.epochLength intoEpoch) [.incrementEpoch]
              rfl rfl rfl (by simp)
theorem Pause_events (b : Service) :
    (Pause b).2.2 = [] ∨ (Pause b).2.2 = [.closePause b.pause.id] := by
  unfold Pause
  split
  · exact Or.inl rfl
  · exact Or.inr rfl

/-- The events of the catch-up test and of what follows it. -/
theorem catchUp_events (d : Deps) (b : Service) (epoch epochStartSlot : Nat) (st : EpochStep) :
    (∃ startSlot k, k < 2 ^ 63 ∧
      handledSlots (catchUp d b epoch epochStartSlot st).2.2 =
        (List.range' 0 k).map (fun j => (epoch, addU64 startSlot j)) ∧
      (k ≠ 0 → getCurrentSlot st.now b.slotDuration = .ok startSlot)) ∧
    initiatedEpochs (catchUp d b epoch epochStartSlot st).2.2 = [] ∧
    (submittedSlots (catchUp d b epoch epochStartSlot st).2.2).Sublist
      (handledSlots (catchUp d b epoch epochStartSlot st).2.2) := by
  have hnil : ∀ r : Result Nat, (∃ startSlot k, k < 2 ^ 63 ∧
      handledSlots [] = (List.range' 0 k).map (fun j => (epoch, addU64 startSlot j)) ∧
      (k ≠ 0 → r = .ok startSlot)) ∧
      initiatedEpochs [] = [] ∧ (submittedSlots []).Sublist (handledSlots []) :=
    fun r => ⟨⟨0, 0, Nat.two_pow_pos 63, rfl, fun h => absurd rfl h⟩, rfl, List.Sublist.refl _⟩
  unfold catchUp
  cases getCurrentSlot st.now b.slotDuration with
  | error e => exact hnil _
  | panic p => exact hnil _
  | blocked => exact hnil _
  | ok startSlot =>
    dsimp only
    have hphase : ∀ into, (∃ s k, k < 2 ^ 63 ∧
        handledSlots (slotPhase d b epoch startSlot into st).2.2 =
          (List.range' 0 k).map (fun j => (epoch, addU64 s j)) ∧
        (k ≠ 0 → Result.ok startSlot = Result.ok s)) ∧
        initiatedEpochs (slotPhase d b epoch startSlot into st).2.2 = [] ∧
        (submittedSlots (slotPhase d b epoch startSlot into st).2.2).Sublist
          (handledSlots (slotPhase d b epoch startSlot into st).2.2) := by
      intro into
      obtain ⟨⟨k, hk1, hk2⟩, h2, _, h4⟩ := slotPhase_events d b epoch startSlot into st
      exact ⟨⟨startSlot, k, hk1, hk2, fun _ => rfl⟩, h2, h4⟩
    by_cases hc : (decide (b.epochLength ≤ subU64 startSlot epochStartSlot) && !b.dev) = true
    · rw [if_pos hc]
      rcases Pause_events b with h | h
      · rcases hp : Pause b with ⟨r, b1, tr⟩
        rw [hp] at h
        dsimp only at h ⊢
        subst h
        exact ⟨⟨0, 0, Nat.two_pow_pos 63, rfl, fun h => absurd rfl h⟩, rfl, List.Sublist.refl _⟩
      · rcases hp : Pause b with ⟨r, b1, tr⟩
        rw [hp] at h
        dsimp only at h ⊢
        subst h
        exact ⟨⟨0, 0, Nat.two_pow_pos 63, rfl, fun h => absurd rfl h⟩, rfl, List.Sublist.refl _⟩
    · rw [if_neg hc]
      by_cases hd : b.dev = true
      · rw [if_pos hd]
        by_cases hz : b.epochLength = 0
        · rw [if_pos hz]
          exact ⟨⟨0, 0, Nat.two_pow_pos 63, rfl, fun h => absurd rfl h⟩, rfl, List.Sublist.refl _⟩
        · rw [if_neg hz]
          exact hphase _
      · rw [if_neg hd]
        exact hphase _

/-- The events of one iteration of the epoch loop: one call of `initiateEpoch`;
the slots handled are `startSlot`, `startSlot + 1`, ... for the slot `startSlot`
read from the clock, all for the epoch of the iteration; and every block
submitted is for a slot handled. -/
theorem epochIteration_events (d : Deps) (b : Service) (epoch : Nat) (st : EpochStep) :
    (∃ startSlot k, k < 2 ^ 63 ∧
      handledSlots (epochIteration d b epoch st).2.2 =
        (List.range' 0 k).map (fun j => (epoch, addU64 startSlot j)) ∧
      (k ≠ 0 → getCurrentSlot st.now b.slotDuration = .ok startSlot)) ∧
    initiatedEpochs (epochIteration d b epoch st).2.2 = [epoch] ∧
    (submittedSlots (epochIteration d b epoch st).2.2).Sublist
      (handledSlots (epochIteration d b epoch st).2.2) := by
  have hstop : ∀ tr : List Event, (tr = [] ∨ tr = [.getStartSlotForEpoch epoch]) →
      (∃ startSlot k, k < 2 ^ 63 ∧
        handledSlots (Event.initiateEpoch epoch :: tr) =
          (List.range' 0 k).map (fun j => (epoch, addU64 startSlot j)) ∧
        (k ≠ 0 → getCurrentSlot st.now b.slotDuration = .ok startSlot)) ∧
      initiatedEpochs (Event.initiateEpoch epoch :: tr) = [epoch] ∧
      (submittedSlots (Event.initiateEpoch epoch :: tr)).Sublist
        (handledSlots (Event.initiateEpoch epoch :: tr)) := by
    intro tr htr
    rcases htr with h | h <;> subst h <;>
      exact ⟨⟨0, 0, Nat.two_pow_pos 63, rfl, fun h => absurd rfl h⟩, rfl, List.Sublist.refl _⟩
  unfold epochIteration
  dsimp only
  cases st.initiateEpoch with
  | error e => exact hstop [] (Or.inl rfl)
  | ok v =>
    obtain ⟨data, proofs⟩ := v
    dsimp only
    obtain ⟨⟨_, _, hdur, _⟩, hw⟩ := waitForEpochStart_events
      { runCalls b st.calls with epochData := some data, slotToProof := proofs }
      epoch st.waitNow st.wake
    rcases hwait : waitForEpochStart
      { runCalls b st.calls with epochData := some data, slotToProof := proofs }
      epoch st.waitNow st.wake with ⟨r, b2, tr⟩
    rw [hwait] at hdur hw
    dsimp only at hdur hw
    cases r with
    | error e => exact hstop tr hw
    | panic p => exact hstop tr hw
    | blocked => exact hstop tr hw
    | ok epochStartSlot =>
      dsimp only
      obtain ⟨⟨s, k, hk1, hk2, hk3⟩, h2, h4⟩ := catchUp_events d b2 epoch epochStartSlot st
      have hdur2 : b2.slotDuration = b.slotDuration := hdur.trans (runCalls_settings b st.calls).2.2.1
      rw [hdur2] at hk3
      have e1 : handledSlots (Event.initiateEpoch epoch ::
          tr ++ (catchUp d b2 epoch epochStartSlot st).2.2) =
          handledSlots (catchUp d b2 epoch epochStartSlot st).2.2 := by
        change handledSlots ([Event.initiateEpoch epoch] ++ tr ++ _) = _
        rw [handledSlots_append, handledSlots_append]
        rcases hw with h | h <;> subst h <;> rfl
      have e2 : submittedSlots (Event.initiateEpoch epoch ::
          tr ++ (catchUp d b2 epoch epochStartSlot st).2.2) =
          submittedSlots (catchUp d b2 epoch epochStartSlot st).2.2 := by
        change submittedSlots ([Event.initiateEpoch epoch] ++ tr ++ _) = _
        rw [submittedSlots_append, submittedSlots_append]
        rcases hw with h | h <;> subst h <;> rfl
      have e3 : initiatedEpochs (Event.initiateEpoch epoch ::
          tr ++ (catchUp d b2 epoch epochStartSlot st).2.2) = [epoch] := by
        change initiatedEpochs ([Event.initiateEpoch epoch] ++ tr ++ _) = _
        rw [initiatedEpochs_append, initiatedEpochs_append, h2]
        rcases hw with h | h <;> subst h <;> rfl
      rcases hcu : catchUp d b2 epoch epochStartSlot st with ⟨x, b3, tr2⟩
      rw [hcu] at e1 e2 e3 hk2 h4
      dsimp only at e1 e2 e3 hk2 h4 ⊢
      refine ⟨⟨s, k, hk1, ?_, hk3⟩, e3, ?_⟩
      · rw [e1, hk2]
      · rw [e1, e2]; exact h4
/-! ### Each slot at most once -/

theorem addU64_inj (s j1 j2 : Nat) (h1 : j1 < 2 ^ 63) (h2 : j2 < 2 ^ 63)
    (h : addU64 s j1 = addU64 s j2) : j1 = j2 := by
  unfold addU64 at h
  rw [two_pow_64_nat] at h
  rw [two_pow_63_nat] at h1 h2
  omega

/-- A slot read from a clock at or after the Unix epoch is below `2 ^ 63`. -/
theorem getCurrentSlot_lt (now dur : Int) (s : Nat) (h0 : 0 ≤ now) (h1 : now < 2 ^ 63)
    (h : getCurrentSlot now dur = .ok s) : s < 2 ^ 63 := by
  unfold getCurrentSlot at h
  split at h
  · simp at h
  · simp only [Result.ok.injEq] at h
    subst h
    have hn : toUint64 now < 2 ^ 63 := by
      unfold toUint64
      rw [two_pow_63_int] at h1
      rw [two_pow_64_int, two_pow_63_nat]
      omega
    exact lt_of_le_of_lt (Nat.div_le_self _ _) hn

/-- Consecutive slot numbers without duplicates. -/
theorem slots_nodup (epoch s k : Nat) (hk : k < 2 ^ 63) :
    ((List.range' 0 k).map (fun j => (epoch, addU64 s j))).Nodup := by
  apply List.Nodup.map_on _ (List.nodup_range' 0 k)
  intro x hx y hy hxy
  simp only [List.mem_range'_1] at hx hy
  simp only [Prod.mk.injEq, true_and] at hxy
  exact addU64_inj s x y (by omega) (by omega) hxy

/-- Consecutive slot numbers increase when the first is below `2 ^ 63`. -/
theorem slots_increasing (epoch s k : Nat) (hk : k < 2 ^ 63) (hs : s < 2 ^ 63) :
    ((List.range' 0 k).map (fun j => (epoch, addU64 s j))).Pairwise (fun p q => p.2 < q.2) := by
  rw [List.pairwise_map]
  refine List.Pairwise.imp_of_mem ?_ (List.pairwise_lt_range' 0 k)
  intro x y hx hy hxy
  simp only [List.mem_range'_1] at hx hy
  dsimp only
  unfold addU64
  rw [two_pow_63_nat] at hk hs
  rw [two_pow_64_nat]
  omega

/-- The events of the epoch loop: when the epochs initiated are pairwise
different, no pair `(epoch, slot)` is handled twice; the epoch of every slot
handled is an epoch initiated; every block submitted is for a slot handled. -/
theorem epochLoop_events (d : Deps) (steps : List EpochStep) :
    ∀ (epoch : Nat) (b : Service),
      ((initiatedEpochs (epochLoop d epoch b steps).2.2).Nodup →
        (handledSlots (epochLoop d epoch b steps).2.2).Nodup) ∧
      (∀ p ∈ handledSlots (epochLoop d epoch b steps).2.2,
        p.1 ∈ initiatedEpochs (epochLoop d epoch b steps).2.2) ∧
      (submittedSlots (epochLoop d epoch b steps).2.2).Sublist
        (handledSlots (epochLoop d epoch b steps).2.2) := by
  induction steps with
  | nil =>
    intro epoch b
    unfold epochLoop
    exact ⟨fun _ => List.nodup_nil, by simp [handledSlots], List.Sublist.refl _⟩
  | cons st rest ih =>
    intro epoch b
    unfold epochLoop
    obtain ⟨⟨s, k, hk1, hk2, _⟩, h2, h4⟩ := epochIteration_events d b epoch st
    rcases hit : epochIteration d b epoch st with ⟨x, b1, tr⟩
    rw [hit] at hk2 h2 h4
    dsimp only at hk2 h2 h4 ⊢
    have hnd : (handledSlots tr).Nodup := by rw [hk2]; exact slots_nodup epoch s k hk1
    have hep : ∀ p ∈ handledSlots tr, p.1 = epoch := by
      intro p hp
      rw [hk2, List.mem_map] at hp
      obtain ⟨j, _, rfl⟩ := hp
      rfl
    cases x with
    | exit r =>
      dsimp only
      refine ⟨fun _ => hnd, ?_, h4⟩
      intro p hp
      rw [h2, hep p hp]
      exact List.mem_singleton_self _
    | next next =>
      dsimp only
      obtain ⟨i1, i2, i3⟩ := ih next b1
      rcases hl : epochLoop d next b1 rest with ⟨r, b2, tr2⟩
      rw [hl] at i1 i2 i3
      dsimp only at i1 i2 i3 ⊢
      rw [handledSlots_append, submittedSlots_append, initiatedEpochs_append, h2]
      refine ⟨?_, ?_, List.Sublist.append h4 i3⟩
      · intro hn
        rw [List.singleton_append, List.nodup_cons] at hn
        refine List.Nodup.append hnd (i1 hn.2) ?_
        intro p hp1 hp2
        have := i2 p hp2
        rw [hep p hp1] at this
        exact hn.1 this
      · intro p hp
        rw [List.mem_append] at hp ⊢
        rcases hp with hp | hp
        · left
          rw [hep p hp]
          exact List.mem_singleton_self _
        · right
          exact i2 p hp
/-! ### The catch-up rule -/

theorem wrapInt64_of_lt (n : Nat) (h : n < 2 ^ 63) : wrapInt64 (n : Int) = n := by
  unfold wrapInt64
  dsimp only
  rw [two_pow_64_int, two_pow_63_int]
  rw [two_pow_63_nat] at h
  have h1 : (n : Int) % 18446744073709551616 = n := by omega
  rw [h1, if_pos (by omega)]

theorem Pause_ok (b : Service) : (Pause b).1 = .ok () := by
  unfold Pause
  split <;> rfl

/-- The branch of the catch-up test. -/
theorem catchUp_branch (d : Deps) (b : Service) (epoch epochStartSlot : Nat) (st : EpochStep)
    (startSlot : Nat) (hslot : getCurrentSlot st.now b.slotDuration = .ok startSlot) :
    ((b.epochLength ≤ subU64 startSlot epochStartSlot ∧ b.dev = false) →
      catchUp d b epoch epochStartSlot st =
        (.exit (.ok ()), (Pause b).2.1, .pauseForSync :: (Pause b).2.2)) ∧
    (¬ (b.epochLength ≤ subU64 startSlot epochStartSlot ∧ b.dev = false) →
      (b.dev = true → b.epochLength ≠ 0) →
      catchUp d b epoch epochStartSlot st =
        slotPhase d b epoch startSlot
          (if b.dev then subU64 startSlot epochStartSlot % b.epochLength
            else subU64 startSlot epochStartSlot) st) ∧
    (Event.pauseForSync ∈ (catchUp d b epoch epochStartSlot st).2.2 ↔
      (b.epochLength ≤ subU64 startSlot epochStartSlot ∧ b.dev = false)) := by
  have hyes : (b.epochLength ≤ subU64 startSlot epochStartSlot ∧ b.dev = false) →
      catchUp d b epoch epochStartSlot st =
        (.exit (.ok ()), (Pause b).2.1, .pauseForSync :: (Pause b).2.2) := by
    intro hc
    unfold catchUp
    rw [hslot]
    dsimp only
    rw [if_pos (by simp [hc.1, hc.2])]
    rcases hp : Pause b with ⟨r, b1, tr⟩
    have := Pause_ok b
    rw [hp] at this
    dsimp only at this ⊢
    rw [this]
  have hno : ¬ (b.epochLength ≤ subU64 startSlot epochStartSlot ∧ b.dev = false) →
      (b.dev = true ∧ b.epochLength = 0 ∧
        catchUp d b epoch epochStartSlot st = (.exit (.panic .divideByZero), b, [])) ∨
      catchUp d b epoch epochStartSlot st =
        slotPhase d b epoch startSlot
          (if b.dev then subU64 startSlot epochStartSlot % b.epochLength
            else subU64 startSlot epochStartSlot) st := by
    intro hc
    unfold catchUp
    rw [hslot]
    dsimp only
    have hc2 : ¬ (decide (b.epochLength ≤ subU64 startSlot epochStartSlot) && !b.dev) = true := by
      intro h
      apply hc
      simpa using h
    rw [if_neg hc2]
    by_cases hd : b.dev = true
    · rw [if_pos hd]
      by_cases hz : b.epochLength = 0
      · rw [if_pos hz]
        exact Or.inl ⟨hd, hz, rfl⟩
      · rw [if_neg hz]
        right
        simp [hd]
    · rw [if_neg hd]
      right
      simp [hd]
  refine ⟨hyes, ?_, ?_⟩
  · intro hc hz
    rcases hno hc with ⟨hd, h0, _⟩ | h
    · exact absurd h0 (hz hd)
    · exact h
  · constructor
    · intro hmem
      by_contra hc
      rcases hno hc with ⟨_, _, h⟩ | h
      · rw [h] at hmem
        simp at hmem
      · rw [h] at hmem
        exact (slotPhase_events d b epoch startSlot _ st).2.2.1 hmem
    · intro hc
      rw [hyes hc]
      exact List.mem_cons_self _ _
/-- The catch-up rule on every input but dev mode with a zero epoch length: when
an epoch iteration of `invokeBlockAuthoring` reaches the catch-up test (the
epoch is initiated, its start has been waited for, the current slot `startSlot`
is read), with `intoEpoch = startSlot - epochStartSlot`: the loop makes its call
`return b.Pause()` if and only if `epochLength ≤ intoEpoch` and dev mode is off;
in that case the iteration, and with it the loop, returns nil, `IsPaused` is
true and no slot has been handled; otherwise, unless dev mode is on and the
epoch length zero, the iteration goes on with the slot phase, and when the
start of the next epoch is known and the number of slots left is below `2 ^ 63`
the slot timers are allocated. -/
theorem catchUp_rule (d : Deps) (b : Service) (epoch : Nat) (st : EpochStep)
    (data : epochData) (proofs : List (Nat × VrfOutputAndProof)) (epochStartSlot startSlot : Nat)
    (hinit : st.initiateEpoch = .ok (data, proofs))
    (hwait : (waitForEpochStart
      { runCalls b st.calls with epochData := some data, slotToProof := proofs }
      epoch st.waitNow st.wake).1 = .ok epochStartSlot)
    (hslot : getCurrentSlot st.now b.slotDuration = .ok startSlot) :
    (Event.pauseForSync ∈ (epochIteration d b epoch st).2.2 ↔
      (b.epochLength ≤ subU64 startSlot epochStartSlot ∧ b.dev = false)) ∧
    ((b.epochLength ≤ subU64 startSlot epochStartSlot ∧ b.dev = false) →
      (epochIteration d b epoch st).1 = .exit (.ok ()) ∧
      IsPaused (epochIteration d b epoch st).2.1 = true ∧
      handledSlots (epochIteration d b epoch st).2.2 = [] ∧
      ∀ rest, (epochLoop d epoch b (st :: rest)).1 = .ok () ∧
        IsPaused (epochLoop d epoch b (st :: rest)).2.1 = true ∧
        handledSlots (epochLoop d epoch b (st :: rest)).2.2 = []) ∧
    (¬ (b.epochLength ≤ subU64 startSlot epochStartSlot ∧ b.dev = false) →
      (b.dev = true → b.epochLength ≠ 0) →
      ∃ b2 tr,
        waitForEpochStart
          { runCalls b st.calls with epochData := some data, slotToProof := proofs }
          epoch st.waitNow st.wake = (.ok epochStartSlot, b2, tr) ∧
        epochIteration d b epoch st =
          ((slotPhase d b2 epoch startSlot
              (if b.dev then subU64 startSlot epochStartSlot % b.epochLength
                else subU64 startSlot epochStartSlot) st).1,
           (slotPhase d b2 epoch startSlot
              (if b.dev then subU64 startSlot epochStartSlot % b.epochLength
                else subU64 startSlot epochStartSlot) st).2.1,
           .initiateEpoch epoch :: tr ++
             (slotPhase d b2 epoch startSlot
              (if b.dev then subU64 startSlot epochStartSlot % b.epochLength
                else subU64 startSlot epochStartSlot) st).2.2)) ∧
    (¬ (b.epochLength ≤ subU64 startSlot epochStartSlot ∧ b.dev = false) →
      (b.dev = true → b.epochLength ≠ 0) →
      ∀ es nextStart, b.epochState = some es →
        es.GetStartSlotForEpoch (addU64 epoch 1) = .ok nextStart →
        subU64 b.epochLength
          (if b.dev then subU64 startSlot epochStartSlot % b.epochLength
            else subU64 startSlot epochStartSlot) < 2 ^ 63 →
        Event.makeSlotTimers (subU64 b.epochLength
          (if b.dev then subU64 startSlot epochStartSlot % b.epochLength
            else subU64 startSlot epochStartSlot)) ∈ (epochIteration d b epoch st).2.2) := by
  obtain ⟨⟨hdev, hlen, hdur, hes⟩, htr⟩ := waitForEpochStart_events
    { runCalls b st.calls with epochData := some data, slotToProof := proofs }
    epoch st.waitNow st.wake
  obtain ⟨gdev, glen, gdur, ges⟩ := runCalls_settings b st.calls
  rcases hw : waitForEpochStart
    { runCalls b st.calls with epochData := some data, slotToProof := proofs }
    epoch st.waitNow st.wake with ⟨r, b2, tr⟩
  rw [hw] at hwait hdev hlen hdur hes htr
  dsimp only at hwait hdev hlen hdur hes htr
  subst hwait
  have hdev2 : b2.dev = b.dev := hdev.trans gdev
  have hlen2 : b2.epochLength = b.epochLength := hlen.trans glen
  have hdur2 : b2.slotDuration = b.slotDuration := hdur.trans gdur
  have hes2 : b2.epochState = b.epochState := hes.trans ges
  have hit : epochIteration d b epoch st =
      ((catchUp d b2 epoch epochStartSlot st).1, (catchUp d b2 epoch epochStartSlot st).2.1,
        .initiateEpoch epoch :: tr ++ (catchUp d b2 epoch epochStartSlot st).2.2) := by
    unfold epochIteration
    dsimp only
    rw [hinit]
    dsimp only
    rw [hw]
  have hslot2 : getCurrentSlot st.now b2.slotDuration = .ok startSlot := by rw [hdur2]; exact hslot
  obtain ⟨c1, c2, c3⟩ := catchUp_branch d b2 epoch epochStartSlot st startSlot hslot2
  rw [hdev2, hlen2] at c1 c2 c3
  have hmem : ∀ ev : Event, ev ≠ .initiateEpoch epoch → ev ≠ .getStartSlotForEpoch epoch →
      (ev ∈ (epochIteration d b epoch st).2.2 ↔ ev ∈ (catchUp d b2 epoch epochStartSlot st).2.2) := by
    intro ev h1 h2
    rw [hit]
    dsimp only
    rcases htr with h | h <;> subst h <;> simp [h1, h2]
  have hpause : (b.epochLength ≤ subU64 startSlot epochStartSlot ∧ b.dev = false) →
      (epochIteration d b epoch st).1 = .exit (.ok ()) ∧
      IsPaused (epochIteration d b epoch st).2.1 = true ∧
      handledSlots (epochIteration d b epoch st).2.2 = [] := by
    intro hc
    rw [hit, c1 hc]
    dsimp only
    refine ⟨rfl, IsPaused_Pause b2, ?_⟩
    change handledSlots ([Event.initiateEpoch epoch] ++ tr ++ ([Event.pauseForSync] ++ (Pause b2).2.2)) = []
    rw [handledSlots_append, handledSlots_append, handledSlots_append]
    rcases htr with h | h <;> subst h <;> rcases Pause_events b2 with h | h <;> rw [h] <;> rfl
  refine ⟨?_, ?_, ?_, ?_⟩
  · rw [hmem _ (by simp) (by simp)]
    exact c3
  · intro hc
    obtain ⟨p1, p2, p3⟩ := hpause hc
    refine ⟨p1, p2, p3, ?_⟩
    intro rest
    unfold epochLoop
    rcases hi : epochIteration d b epoch st with ⟨x, b3, tr3⟩
    rw [hi] at p1 p2 p3
    dsimp only at p1 p2 p3 ⊢
    subst p1
    exact ⟨rfl, p2, p3⟩
  · intro hc hz
    refine ⟨b2, tr, rfl, ?_⟩
    rw [hit, c2 hc hz]
  · intro hc hz es nextStart hes3 hq hn
    rw [hmem _ (by simp) (by simp), c2 hc hz]
    unfold slotPhase
    rw [hes2, hes3]
    dsimp only
    rw [hq]
    dsimp only
    rw [hlen2]
    have hw0 : ¬ wrapInt64 (subU64 b.epochLength
        (if b.dev = true then subU64 startSlot epochStartSlot % b.epochLength
          else subU64 startSlot epochStartSlot) : Int) < 0 := by
      rw [wrapInt64_of_lt _ hn]
      omega
    rw [if_neg hw0]
    rcases slotLoop d epoch startSlot _ _ _ _ 0 _ b2 st.ticks with ⟨x, b3, tr3⟩
    cases x with
    | exit r => simp
    | over =>
      dsimp only
      cases st.incrementEpoch <;> simp

theorem catchUp_rule_witness :
    ((epochIteration demoDeps demoService 0 lateStep).1 = .exit (.ok ()) ∧
      IsPaused (epochIteration demoDeps demoService 0 lateStep).2.1 = true ∧
      handledSlots (epochIteration demoDeps demoService 0 lateStep).2.2 = []) ∧
    Event.makeSlotTimers 5 ∈ (epochIteration demoDeps demoService 0 onTimeStep).2.2 :=
  ⟨⟨((catchUp_rule demoDeps demoService 0 lateStep _ _ 0 25 rfl rfl rfl).2.1
        ⟨by decide, rfl⟩).1,
    ((catchUp_rule demoDeps demoService 0 lateStep _ _ 0 25 rfl rfl rfl).2.1
        ⟨by decide, rfl⟩).2.1,
    ((catchUp_rule demoDeps demoService 0 lateStep _ _ 0 25 rfl rfl rfl).2.1
        ⟨by decide, rfl⟩).2.2.1⟩,
   (catchUp_rule demoDeps demoService 0 onTimeStep _ _ 0 5 rfl rfl rfl).2.2.2
      (by decide) (by decide) demoEpochState 10 rfl rfl (by decide)⟩

/-- C3 evaluated where it fails: on the service that `NewService` builds in dev
mode for a chain whose epoch length is zero, an iteration entered in slot 25 of
the epoch starting at slot 0 has `intoEpoch = 25`; dev mode being on, the pause
condition is false and the service is not paused, yet the iteration does not
go on to the slot loop: it panics with a division by zero, having neither
asked for the start of the next epoch nor allocated a slot timer. -/
theorem zero_length_dev_iteration_does_not_reach_slot_loop :
    (NewService demoDeps zeroLengthDevConfig).toOption.map
      (fun b =>
        (getCurrentSlot lateStep.now b.slotDuration,
         decide (b.epochLength ≤ subU64 25 0 ∧ b.dev = false),
         (epochIteration demoDeps b 0 lateStep).1,
         IsPaused (epochIteration demoDeps b 0 lateStep).2.1,
         (epochIteration demoDeps b 0 lateStep).2.2)) =
      some (.ok 25, false, .exit (.panic .divideByZero), false,
        [.initiateEpoch 0, .getStartSlotForEpoch 0]) := by
  decide

/-! ### At most one call of `handleSlot` for a slot -/

/-- C2 as amended: in one epoch iteration of the producer loop no slot number is
handled twice and no slot has two blocks submitted, every slot handled is for
the epoch of the iteration, and the slot numbers handled increase strictly when
the clock reading is at or after the Unix epoch; and in one run of
`invokeBlockAuthoring` whose iterations are for pairwise different epochs, no
pair `(epoch, slot)` is handled twice and none has two blocks submitted. -/
theorem handleSlot_once_per_iteration (d : Deps) (b : Service) :
    (∀ epoch st,
      (handledSlots (epochIteration d b epoch st).2.2).Nodup ∧
      (submittedSlots (epochIteration d b epoch st).2.2).Nodup ∧
      (∀ p ∈ handledSlots (epochIteration d b epoch st).2.2, p.1 = epoch) ∧
      (0 ≤ st.now → st.now < 2 ^ 63 →
        (handledSlots (epochIteration d b epoch st).2.2).Pairwise (fun p q => p.2 < q.2))) ∧
    (∀ steps, (initiatedEpochs (invokeBlockAuthoring d b steps).2.2).Nodup →
      (handledSlots (invokeBlockAuthoring d b steps).2.2).Nodup ∧
      (submittedSlots (invokeBlockAuthoring d b steps).2.2).Nodup) := by
  constructor
  · intro epoch st
    obtain ⟨⟨s, k, hk1, hk2, hk3⟩, _, h4⟩ := epochIteration_events d b epoch st
    have hnd : (handledSlots (epochIteration d b epoch st).2.2).Nodup := by
      rw [hk2]; exact slots_nodup epoch s k hk1
    refine ⟨hnd, List.Nodup.sublist h4 hnd, ?_, ?_⟩
    · intro p hp
      rw [hk2, List.mem_map] at hp
      obtain ⟨j, _, rfl⟩ := hp
      rfl
    · intro h0 h1
      rw [hk2]
      by_cases hz : k = 0
      · subst hz
        exact List.Pairwise.nil
      · exact slots_increasing epoch s k hk1 (getCurrentSlot_lt _ _ s h0 h1 (hk3 hz))
  · intro steps
    unfold invokeBlockAuthoring
    cases b.epochState with
    | none => intro _; exact ⟨List.nodup_nil, List.nodup_nil⟩
    | some es =>
      dsimp only
      cases es.GetCurrentEpoch with
      | error e => intro _; exact ⟨List.nodup_nil, List.nodup_nil⟩
      | ok epoch =>
        dsimp only
        intro hn
        obtain ⟨h1, _, h3⟩ := epochLoop_events d steps epoch b
        exact ⟨h1 hn, List.Nodup.sublist h3 (h1 hn)⟩

theorem handleSlot_once_per_iteration_witness :
    handledSlots (invokeBlockAuthoring demoDeps demoService fullRun).2.2 =
      [(0, 5), (0, 6), (0, 7), (0, 8), (0, 9), (1, 10), (1, 11)] ∧
    submittedSlots (invokeBlockAuthoring demoDeps demoService fullRun).2.2 =
      [(0, 5), (0, 7), (1, 10)] ∧
    handledSlots (epochIteration demoDeps demoService 0 fullStep).2.2 =
      [(0, 5), (0, 6), (0, 7), (0, 8), (0, 9)] ∧
    (handledSlots (epochIteration demoDeps demoService 0 fullStep).2.2).Pairwise
      (fun p q => p.2 < q.2) ∧
    (handledSlots (invokeBlockAuthoring demoDeps demoService fullRun).2.2).Nodup ∧
    (submittedSlots (invokeBlockAuthoring demoDeps demoService fullRun).2.2).Nodup :=
  ⟨by decide, by decide, by decide,
   ((handleSlot_once_per_iteration demoDeps demoService).1 0 fullStep).2.2.2
      (by decide) (by decide),
   (handleSlot_once_per_iteration demoDeps demoService).2 fullRun (by decide)⟩

/-- C2 fails across runs and across epoch iterations. Alice is started 5.1 s
after the Unix epoch and handles slot 5 of epoch 0; `Pause` is called at 5.3 s,
the loop returns; `Resume` at 5.5 s spawns the loop again, which reads slot 5
from the clock and handles slot 5 of epoch 0 a second time, submitting a second
block. And in one dev-mode run entered two epochs late, slot 25 is handled in
the iteration for epoch 0, the epoch timer, already due, ends that iteration,
and the iteration for epoch 1 reads slot 25 from the clock and handles it
again: the slot numbers handled in the run do not increase. -/
theorem respawned_loop_handles_slot_again :
    NewService demoDeps demoConfig = .ok demoService ∧
    Start demoService [] = (.ok (), [.spawnInitiate]) ∧
    handledSlots (respawnedRuns demoDeps demoService [firstRun, secondRun]) = [(0, 5), (0, 5)] ∧
    submittedSlots (respawnedRuns demoDeps demoService [firstRun, secondRun]) =
      [(0, 5), (0, 5)] ∧
    handledSlots (invokeBlockAuthoring demoDeps devService devRun).2.2 = [(0, 25), (1, 25)] :=
  ⟨rfl, by decide, by decide, by decide, by decide⟩

/-! ### The wait for the first block -/


/-- On a number that fits in an `int64`, `Int64()` is the number. -/
theorem bigInt64_of_range (n : Int) (h0 : -2 ^ 63 ≤ n) (h1 : n < 2 ^ 63) : bigInt64 n = n := by
  rw [two_pow_63_int] at h0 h1
  by_cases hn : 0 ≤ n
  · obtain ⟨m, rfl⟩ := Int.eq_ofNat_of_zero_le hn
    unfold bigInt64 wrapInt64
    dsimp only
    rw [Int.natAbs_ofNat, two_pow_64_nat]
    simp only [two_pow_64_int, two_pow_63_int]
    have hm : m % 18446744073709551616 = m := by omega
    rw [hm, if_neg (by omega)]
    have hm2 : (m : Int) % 18446744073709551616 = m := by omega
    rw [hm2, if_pos h1]
  · obtain ⟨m, rfl⟩ := Int.exists_eq_neg_ofNat (by omega : n ≤ 0)
    unfold bigInt64 wrapInt64
    dsimp only
    rw [Int.natAbs_neg, Int.natAbs_ofNat, two_pow_64_nat]
    simp only [two_pow_64_int, two_pow_63_int]
    have hm : m % 18446744073709551616 = m := by omega
    rw [hm, if_pos (by omega)]
    have hm2 : (m : Int) % 18446744073709551616 = m := by omega
    rw [hm2]
    by_cases hlt : (m : Int) < 9223372036854775808
    · rw [if_pos hlt]
      have hm3 : (-(m : Int)) % 18446744073709551616 = 18446744073709551616 - m := by omega
      rw [hm3, if_neg (by omega)]
      omega
    · rw [if_neg hlt]
      have hm4 : (m : Int) = 9223372036854775808 := by omega
      rw [hm4]
      decide

/-- Blocks whose number is not above zero are passed over. -/
theorem firstBlockLoop_ignored (ignored rest : List FirstBlockEvent)
    (hign : ∀ x ∈ ignored, ∃ n, x = .block n ∧ -2 ^ 63 ≤ n ∧ n ≤ 0) :
    firstBlockLoop (ignored ++ rest) = firstBlockLoop rest := by
  induction ignored with
  | nil => rfl
  | cons x xs ih =>
    obtain ⟨n, rfl, h0, h1⟩ := hign _ (List.mem_cons_self _ _)
    have hb : bigInt64 n = n :=
      bigInt64_of_range n h0 (lt_of_le_of_lt h1 (by rw [two_pow_63_int]; decide))
    rw [List.cons_append, firstBlockLoop, hb, if_neg (by omega)]
    exact ih (fun y hy => hign y (List.mem_cons_of_mem _ hy))

/-- The loop of the waiter records nothing but the clean-up of its timer. -/
theorem firstBlockLoop_trace (evs : List FirstBlockEvent) :
    (firstBlockLoop evs).2 = [] ∨ (firstBlockLoop evs).2 = [.timerCleanup] := by
  induction evs with
  | nil => exact Or.inl rfl
  | cons e rest ih =>
    cases e with
    | block n =>
      rw [firstBlockLoop]
      by_cases h : bigInt64 n > 0
      · rw [if_pos h]; exact Or.inr rfl
      · rw [if_neg h]; exact ih
    | closed => exact Or.inr rfl
    | timer => exact Or.inl rfl
    | ctxDone => exact Or.inr rfl

/-- The first event that is not such a block decides. -/
theorem firstBlockLoop_decided (e : FirstBlockEvent) (rest : List FirstBlockEvent)
    (he : ∀ n, e = .block n → 0 < n ∧ n < 2 ^ 63) :
    (firstBlockLoop (e :: rest)).1 = firstBlockVerdict e ∧
    (firstBlockLoop (e :: rest)).1 ≠ .blocked := by
  cases e with
  | block n =>
    obtain ⟨h0, h1⟩ := he n rfl
    have hb : bigInt64 n = n :=
      bigInt64_of_range n (le_trans (by rw [two_pow_63_int]; decide) (le_of_lt h0)) h1
    rw [firstBlockLoop, hb, if_pos h0]
    exact ⟨rfl, by simp⟩
  | closed => exact ⟨rfl, by simp [firstBlockLoop]⟩
  | timer => exact ⟨rfl, by simp [firstBlockLoop]⟩
  | ctxDone => exact ⟨rfl, by simp [firstBlockLoop]⟩

/-- C11: the events delivered to `waitForFirstBlock` (block numbers within
`int64`) being some blocks numbered zero or below, then an event `e` that is
not one, then anything: the waiter returns what `e` decides (success for a
block numbered above zero, the first-block-timeout error for the timer, the
error of the context for a cancellation, the channel-closed error for a closed
channel); the notifier channel is obtained once and freed exactly once; and
when that result is an error, `Start` on an authority that is not the lead
returns this error and does not spawn the loop. -/
theorem waitForFirstBlock_verdict (b : Service) (bs : BlockState) (hbs : b.blockState = some bs)
    (ignored : List FirstBlockEvent) (e : FirstBlockEvent) (rest : List FirstBlockEvent)
    (hign : ∀ x ∈ ignored, ∃ n, x = .block n ∧ -2 ^ 63 ≤ n ∧ n ≤ 0)
    (he : ∀ n, e = .block n → 0 < n ∧ n < 2 ^ 63) :
    (waitForFirstBlock b (ignored ++ e :: rest)).1 = firstBlockVerdict e ∧
    (waitForFirstBlock b (ignored ++ e :: rest)).2.count .freeNotifierChannel = 1 ∧
    (waitForFirstBlock b (ignored ++ e :: rest)).2.count .getNotifierChannel = 1 ∧
    (b.authority = true → b.lead = false → firstBlockVerdict e ≠ .ok () →
      (Start b (ignored ++ e :: rest)).1 = firstBlockVerdict e ∧
      Event.spawnInitiate ∉ (Start b (ignored ++ e :: rest)).2) := by
  obtain ⟨h1, h2⟩ := firstBlockLoop_decided e rest he
  have hloop := firstBlockLoop_ignored ignored (e :: rest) hign
  rw [← hloop] at h1 h2
  have htr := firstBlockLoop_trace (ignored ++ e :: rest)
  have hw : waitForFirstBlock b (ignored ++ e :: rest) =
      (firstBlockVerdict e, .getNotifierChannel ::
        (firstBlockLoop (ignored ++ e :: rest)).2 ++ [.freeNotifierChannel]) := by
    unfold waitForFirstBlock
    rw [hbs]
    dsimp only
    rcases hl : firstBlockLoop (ignored ++ e :: rest) with ⟨r, tr⟩
    rw [hl] at h1 h2
    dsimp only at h1 h2 ⊢
    subst h1
    cases e <;> rfl
  refine ⟨by rw [hw], ?_, ?_, ?_⟩
  · rw [hw]
    rcases htr with h | h <;> rw [h] <;> rfl
  · rw [hw]
    rcases htr with h | h <;> rw [h] <;> rfl
  · intro ha hl hv
    unfold Start
    rw [ha, hl, hw]
    simp only [Bool.not_true, Bool.not_false, Bool.false_eq_true, if_false, if_true]
    have hv2 : ∀ v, firstBlockVerdict e ≠ .ok v := fun v => hv
    cases hfe : firstBlockVerdict e with
    | ok v => exact absurd hfe (hv2 v)
    | error err =>
      dsimp only
      refine ⟨rfl, ?_⟩
      rcases htr with h | h <;> rw [h] <;> decide
    | panic p => cases e <;> simp [firstBlockVerdict] at hfe
    | blocked => cases e <;> simp [firstBlockVerdict] at hfe

theorem waitForFirstBlock_verdict_witness :
    (waitForFirstBlock followerService [.block 0, .timer, .block 1]).1 =
      .error .errFirstBlockTimeout ∧
    (waitForFirstBlock followerService [.block 0, .timer, .block 1]).2.count
      .freeNotifierChannel = 1 ∧
    (Start followerService [.block 0, .timer, .block 1]).1 = .error .errFirstBlockTimeout :=
  ⟨(waitForFirstBlock_verdict followerService demoBlockState rfl [.block 0] .timer [.block 1]
      (fun x hx => ⟨0, by simpa using hx, by norm_num, le_refl _⟩)
      (fun n h => nomatch h)).1,
   (waitForFirstBlock_verdict followerService demoBlockState rfl [.block 0] .timer [.block 1]
      (fun x hx => ⟨0, by simpa using hx, by norm_num, le_refl _⟩)
      (fun n h => nomatch h)).2.1,
   ((waitForFirstBlock_verdict followerService demoBlockState rfl [.block 0] .timer [.block 1]
      (fun x hx => ⟨0, by simpa using hx, by norm_num, le_refl _⟩)
      (fun n h => nomatch h)).2.2.2 rfl rfl (by decide)).1⟩

/-! ### The slot clock -/


/-- On a non-negative `int64`, `uint64(x)` is the number. -/
theorem toUint64_of_range (x : Int) (h0 : 0 ≤ x) (h1 : x < 2 ^ 63) : toUint64 x = x.toNat := by
  unfold toUint64
  rw [two_pow_63_int] at h1
  rw [two_pow_64_int]
  have : x % 18446744073709551616 = x := by omega
  rw [this]

/-- C12: for a positive slot duration `d` and clock readings `t1 ≤ t2` at or
after the Unix epoch (all of them `int64` values), `getCurrentSlot` returns the
floor of `t / d`, that is the number `s` with `s * d ≤ t < (s + 1) * d`, and
the slot of `t1` is at most the slot of `t2`. -/
theorem getCurrentSlot_floor_monotone (d t1 t2 : Int) (hd : 0 < d) (hd2 : d < 2 ^ 63)
    (h1 : 0 ≤ t1) (h12 : t1 ≤ t2) (h2 : t2 < 2 ^ 63) :
    getCurrentSlot t1 d = .ok (t1 / d).toNat ∧
    getCurrentSlot t2 d = .ok (t2 / d).toNat ∧
    ((t1 / d).toNat : Int) * d ≤ t1 ∧ t1 < (((t1 / d).toNat : Int) + 1) * d ∧
    (t1 / d).toNat ≤ (t2 / d).toNat := by
  have key : ∀ t : Int, 0 ≤ t → t < 2 ^ 63 → getCurrentSlot t d = .ok (t / d).toNat := by
    intro t ht0 ht1
    unfold getCurrentSlot
    rw [toUint64_of_range d (le_of_lt hd) hd2, toUint64_of_range t ht0 ht1]
    have hdn : d.toNat ≠ 0 := by omega
    rw [if_neg hdn]
    congr 1
    apply Int.ofNat.inj
    simp only [Int.ofNat_eq_coe]
    rw [Int.toNat_of_nonneg (Int.ediv_nonneg ht0 (le_of_lt hd)), Int.natCast_div,
      Int.toNat_of_nonneg ht0, Int.toNat_of_nonneg (le_of_lt hd)]
  have hq : 0 ≤ t1 / d := Int.ediv_nonneg h1 (le_of_lt hd)
  refine ⟨key t1 h1 (lt_of_le_of_lt h12 h2), key t2 (le_trans h1 h12) h2, ?_, ?_, ?_⟩
  · rw [Int.toNat_of_nonneg hq]
    exact Int.ediv_mul_le t1 (ne_of_gt hd)
  · rw [Int.toNat_of_nonneg hq]
    exact Int.lt_ediv_add_one_mul_self t1 hd
  · exact Int.toNat_le_toNat (Int.ediv_le_ediv hd h12)

theorem getCurrentSlot_floor_monotone_witness :
    getCurrentSlot 5100000000 1000000000 = .ok 5 ∧
    getCurrentSlot 6500000000 1000000000 = .ok 6 :=
  ⟨(getCurrentSlot_floor_monotone 1000000000 5100000000 6500000000 (by norm_num) (by norm_num)
      (by norm_num) (by norm_num) (by norm_num)).1,
   (getCurrentSlot_floor_monotone 1000000000 5100000000 6500000000 (by norm_num) (by norm_num)
      (by norm_num) (by norm_num) (by norm_num)).2.1⟩

/-- A non-negative number below `2 ^ 63` is an `int64`. -/
theorem wrapInt64_of_range (x : Int) (h0 : 0 ≤ x) (h1 : x < 2 ^ 63) : wrapInt64 x = x := by
  unfold wrapInt64
  dsimp only
  rw [two_pow_63_int] at h1
  rw [two_pow_64_int, two_pow_63_int]
  have : x % 18446744073709551616 = x := by omega
  rw [this, if_pos h1]

/-- C13 as amended: for a positive slot duration `d` (an `int64`) and a slot
number `s` whose start `s * d` is below `2 ^ 63` nanoseconds,
`getSlotStartTime s d` is the instant `s * d` nanoseconds after the Unix epoch,
and `getCurrentSlot` at that instant gives back `s`. -/
theorem getSlotStartTime_roundtrip (s : Nat) (d : Int) (hd : 0 < d) (hd2 : d < 2 ^ 63)
    (h : (s : Int) * d < 2 ^ 63) :
    getSlotStartTime s d = (s : Int) * d ∧
    getCurrentSlot (getSlotStartTime s d) d = .ok s := by
  have hs0 : (0 : Int) ≤ s := Int.natCast_nonneg s
  have hs : (s : Int) < 2 ^ 63 := by
    have : (s : Int) * 1 ≤ (s : Int) * d := Int.mul_le_mul_of_nonneg_left (by omega) hs0
    rw [mul_one] at this
    exact lt_of_le_of_lt this h
  have hp0 : 0 ≤ (s : Int) * d := Int.mul_nonneg hs0 (le_of_lt hd)
  have h1 : getSlotStartTime s d = (s : Int) * d := by
    unfold getSlotStartTime
    rw [wrapInt64_of_range _ hs0 hs, wrapInt64_of_range _ hp0 h]
  refine ⟨h1, ?_⟩
  rw [h1]
  unfold getCurrentSlot
  rw [toUint64_of_range d (le_of_lt hd) hd2, toUint64_of_range _ hp0 h]
  have hdn : d.toNat ≠ 0 := by omega
  rw [if_neg hdn]
  apply congrArg Result.ok
  obtain ⟨n, rfl⟩ := Int.eq_ofNat_of_zero_le (le_of_lt hd)
  have hn : 0 < n := by omega
  have e : ((s : Int) * (n : Int)) = ((s * n : Nat) : Int) := by push_cast; rfl
  rw [e, Int.toNat_natCast, Int.toNat_natCast]
  exact Nat.mul_div_cancel s hn


theorem getSlotStartTime_roundtrip_witness :
    getSlotStartTime 5 1000000000 = 5000000000 ∧
    getCurrentSlot (getSlotStartTime 5 1000000000) 1000000000 = .ok 5 :=
  getSlotStartTime_roundtrip 5 1000000000 (by norm_num) (by norm_num) (by norm_num)

/-- C13 fails for a slot number whose start is not an `int64` number of
nanoseconds: with one-second slots, the start of slot 20000000000 is computed
as 1553255926290448384 ns (in 2019) instead of 20000000000000000000 ns, and
the slot at that instant is 1553255926. -/
theorem getSlotStartTime_overflows :
    getSlotStartTime 20000000000 1000000000 = 1553255926290448384 ∧
    (20000000000 : Int) * 1000000000 ≠ 1553255926290448384 ∧
    getCurrentSlot (getSlotStartTime 20000000000 1000000000) 1000000000 = .ok 1553255926 := by
  decide

/-! ### The slot-scheduling step -/

/-- What holds of the count of slot timers: when the catch-up test lets the
iteration through, and the epoch length is not zero in dev mode, the value
`intoEpoch` that sizes the loop is below the epoch length, so that the `uint64`
count `epochLength - intoEpoch` is the difference itself and is at least 1. -/
theorem slot_count_positive (len into : Nat) (dev : Bool) (hlen : len < 2 ^ 64)
    (hreach : ¬ (len ≤ into ∧ dev = false)) (hz : dev = true → len ≠ 0) :
    (if dev then into % len else into) < len ∧
    subU64 len (if dev then into % len else into) = len - (if dev then into % len else into) ∧
    1 ≤ subU64 len (if dev then into % len else into) := by
  have h1 : (if dev then into % len else into) < len := by
    cases dev with
    | true => exact Nat.mod_lt _ (Nat.pos_of_ne_zero (hz rfl))
    | false =>
      simp only [Bool.false_eq_true, if_false]
      by_contra hc
      exact hreach ⟨by omega, rfl⟩
  generalize (if dev then into % len else into) = x at h1
  rw [two_pow_64_nat] at hlen
  have h2 : subU64 len x = len - x := by
    unfold subU64 toUint64
    rw [two_pow_64_int]
    omega
  exact ⟨h1, h2, by omega⟩

/-- C14 evaluated: in dev mode on a chain whose epoch length is zero, the
service that `NewService` builds has `epochLength = 0`, and the first epoch
iteration of the loop panics with a division by zero at the reduction
`intoEpoch % b.epochLength`. -/
theorem dev_mode_zero_epoch_length_panics :
    (NewService demoDeps zeroLengthDevConfig).toOption.map
      (fun b => (b.dev, b.epochLength, (epochIteration demoDeps b 0 onTimeStep).1,
        (invokeBlockAuthoring demoDeps b firstRun).1)) =
      some (true, 0, .exit (.panic .divideByZero), .panic .divideByZero) := by
  decide

/-! ### The slot numbers of an epoch iteration -/


/-- The `int` value of a `uint64` is at most the `uint64`. -/
theorem wrapInt64_toNat_le (n : Nat) : (wrapInt64 (n : Int)).toNat ≤ n := by
  unfold wrapInt64
  dsimp only
  rw [two_pow_64_int, two_pow_63_int]
  split <;> omega

/-- The slot loop handles at most as many slots as timers were allocated. -/
theorem slotPhase_count (d : Deps) (b : Service) (epoch startSlot intoEpoch : Nat)
    (st : EpochStep) :
    ∃ k, k ≤ subU64 b.epochLength intoEpoch ∧
      handledSlots (slotPhase d b epoch startSlot intoEpoch st).2.2 =
        (List.range' 0 k).map (fun j => (epoch, addU64 startSlot j)) := by
  unfold slotPhase
  cases b.epochState with
  | none => exact ⟨0, Nat.zero_le _, rfl⟩
  | some es =>
    dsimp only
    cases es.GetStartSlotForEpoch (addU64 epoch 1) with
    | error e => exact ⟨0, Nat.zero_le _, rfl⟩
    | ok nextStart =>
      dsimp only
      by_cases hn : wrapInt64 (subU64 b.epochLength intoEpoch) < 0
      · rw [if_pos hn]
        exact ⟨0, Nat.zero_le _, rfl⟩
      · rw [if_neg hn]
        obtain ⟨⟨k, hk1, hk2⟩, -, -, -⟩ := slotLoop_events d epoch startSlot
          (wrapInt64 (subU64 b.epochLength intoEpoch)).toNat st.now b.slotDuration
          (epochTimerDue st.now (getSlotStartTime nextStart b.slotDuration)) st.ticks 0 st.now b
        have hk : k ≤ subU64 b.epochLength intoEpoch := by
          have h0 : k ≤ (wrapInt64 (subU64 b.epochLength intoEpoch : Int)).toNat := by
            simpa using hk1
          exact le_trans h0 (wrapInt64_toNat_le _)
        rcases hsl : slotLoop d epoch startSlot
          (wrapInt64 (subU64 b.epochLength intoEpoch)).toNat st.now b.slotDuration
          (epochTimerDue st.now (getSlotStartTime nextStart b.slotDuration)) 0 st.now b
          st.ticks with ⟨x, b1, tr⟩
        rw [hsl] at hk2
        dsimp only at hk2
        have e1 : ∀ (e n : Nat) (post : List Event), handledSlots post = [] →
            handledSlots (Event.getStartSlotForEpoch e :: Event.makeSlotTimers n :: tr ++ post) =
              handledSlots tr := by
          intro e n post hp
          change handledSlots ([Event.getStartSlotForEpoch e, Event.makeSlotTimers n] ++ tr ++ post) = _
          rw [handledSlots_append, handledSlots_append, hp]
          simp [handledSlots, Event.handled?]
        cases x with
        | exit r =>
          dsimp only
          refine ⟨k, hk, ?_⟩
          have := e1 (addU64 epoch 1) (subU64 b.epochLength intoEpoch) [] rfl
          rw [List.append_nil] at this
          rw [this, hk2]
        | over =>
          dsimp only
          cases st.incrementEpoch with
          | error e =>
            exact ⟨k, hk, by rw [e1 _ _ [.incrementEpoch] rfl, hk2]⟩
          | ok next =>
            exact ⟨k, hk, by rw [e1 _ _ [.incrementEpoch] rfl, hk2]⟩

/-- A slot read from the clock is a `uint64`. -/
theorem getCurrentSlot_lt_two_pow_64 (now dur : Int) (s : Nat)
    (h : getCurrentSlot now dur = .ok s) : s < 2 ^ 64 := by
  unfold getCurrentSlot at h
  split at h
  · simp at h
  · simp only [Result.ok.injEq] at h
    subst h
    have hn : toUint64 now < 2 ^ 64 := by
      unfold toUint64
      rw [two_pow_64_int, two_pow_64_nat]
      omega
    exact lt_of_le_of_lt (Nat.div_le_self _ _) hn

/-- When the current slot is less than an epoch length past the start of the
epoch, the slots from the current one on are those of the rest of the epoch. -/
theorem slots_in_epoch (startSlot epochStartSlot len k : Nat) (hs : startSlot < 2 ^ 64)
    (hinto : subU64 startSlot epochStartSlot < len) (hr : epochStartSlot + len ≤ 2 ^ 64)
    (hk : k ≤ subU64 len (subU64 startSlot epochStartSlot)) :
    startSlot = epochStartSlot + subU64 startSlot epochStartSlot ∧
    ∀ j, j < k →
      addU64 startSlot j = epochStartSlot + subU64 startSlot epochStartSlot + j ∧
      epochStartSlot + subU64 startSlot epochStartSlot + j < epochStartSlot + len := by
  rw [two_pow_64_nat] at hs hr
  have hle : epochStartSlot ≤ startSlot := by
    by_contra hc
    unfold subU64 toUint64 at hinto
    rw [two_pow_64_int] at hinto
    omega
  have hi : subU64 startSlot epochStartSlot = startSlot - epochStartSlot := by
    unfold subU64 toUint64
    rw [two_pow_64_int]
    omega
  rw [hi] at hinto hk ⊢
  have hc : subU64 len (startSlot - epochStartSlot) ≤ len - (startSlot - epochStartSlot) := by
    unfold subU64 toUint64
    rw [two_pow_64_int]
    omega
  refine ⟨by omega, ?_⟩
  intro j hj
  unfold addU64
  rw [two_pow_64_nat]
  omega

/-- C15 as amended: in an epoch iteration that has read the current slot
`startSlot` for the epoch starting at `epochStartSlot`, the slot numbers passed
to `handleSlot` are `startSlot`, `startSlot + 1`, ... (`uint64` additions), at
most `epochLength - intoEpoch` of them for the value `intoEpoch` that sizes the
loop; with dev mode off a slot is handled only if `startSlot - epochStartSlot`
is below the epoch length; and whenever that difference is below the epoch
length (the epoch ending within `uint64`), `startSlot` is
`epochStartSlot + intoEpoch` and every slot handled lies in
`[epochStartSlot + intoEpoch, epochStartSlot + epochLength)`. -/
theorem slot_numbers_of_iteration (d : Deps) (b : Service) (epoch : Nat) (st : EpochStep)
    (data : epochData) (proofs : List (Nat × VrfOutputAndProof)) (epochStartSlot startSlot : Nat)
    (hinit : st.initiateEpoch = .ok (data, proofs))
    (hwait : (waitForEpochStart
      { runCalls b st.calls with epochData := some data, slotToProof := proofs }
      epoch st.waitNow st.wake).1 = .ok epochStartSlot)
    (hslot : getCurrentSlot st.now b.slotDuration = .ok startSlot) :
    ∃ k,
      k ≤ subU64 b.epochLength
        (if b.dev then subU64 startSlot epochStartSlot % b.epochLength
          else subU64 startSlot epochStartSlot) ∧
      handledSlots (epochIteration d b epoch st).2.2 =
        (List.range' 0 k).map (fun j => (epoch, addU64 startSlot j)) ∧
      (b.dev = false → k ≠ 0 → subU64 startSlot epochStartSlot < b.epochLength) ∧
      (subU64 startSlot epochStartSlot < b.epochLength →
        epochStartSlot + b.epochLength ≤ 2 ^ 64 →
        startSlot = epochStartSlot + subU64 startSlot epochStartSlot ∧
        ∀ j, j < k →
          addU64 startSlot j = epochStartSlot + subU64 startSlot epochStartSlot + j ∧
          epochStartSlot + subU64 startSlot epochStartSlot + j <
            epochStartSlot + b.epochLength) := by
  obtain ⟨⟨hdev, hlen, hdur, -⟩, htr⟩ := waitForEpochStart_events
    { runCalls b st.calls with epochData := some data, slotToProof := proofs }
    epoch st.waitNow st.wake
  obtain ⟨gdev, glen, gdur, -⟩ := runCalls_settings b st.calls
  rcases hw : waitForEpochStart
    { runCalls b st.calls with epochData := some data, slotToProof := proofs }
    epoch st.waitNow st.wake with ⟨r, b2, tr⟩
  rw [hw] at hwait hdev hlen hdur htr
  dsimp only at hwait hdev hlen hdur htr
  subst hwait
  have hdev2 : b2.dev = b.dev := hdev.trans gdev
  have hlen2 : b2.epochLength = b.epochLength := hlen.trans glen
  have hdur2 : b2.slotDuration = b.slotDuration := hdur.trans gdur
  have hit : handledSlots (epochIteration d b epoch st).2.2 =
      handledSlots (catchUp d b2 epoch epochStartSlot st).2.2 := by
    unfold epochIteration
    dsimp only
    rw [hinit]
    dsimp only
    rw [hw]
    dsimp only
    change handledSlots ([Event.initiateEpoch epoch] ++ tr ++ _) = _
    rw [handledSlots_append, handledSlots_append]
    rcases htr with h | h <;> subst h <;> rfl
  have hslot2 : getCurrentSlot st.now b2.slotDuration = .ok startSlot := by rw [hdur2]; exact hslot
  obtain ⟨c1, c2, -⟩ := catchUp_branch d b2 epoch epochStartSlot st startSlot hslot2
  rw [hdev2, hlen2] at c1 c2
  have hrange : ∀ k, k ≤ subU64 b.epochLength
        (if b.dev then subU64 startSlot epochStartSlot % b.epochLength
          else subU64 startSlot epochStartSlot) →
      subU64 startSlot epochStartSlot < b.epochLength →
      epochStartSlot + b.epochLength ≤ 2 ^ 64 →
      startSlot = epochStartSlot + subU64 startSlot epochStartSlot ∧
      ∀ j, j < k →
        addU64 startSlot j = epochStartSlot + subU64 startSlot epochStartSlot + j ∧
        epochStartSlot + subU64 startSlot epochStartSlot + j <
          epochStartSlot + b.epochLength := by
    intro k hk hinto hr
    have hmod : (if b.dev then subU64 startSlot epochStartSlot % b.epochLength
        else subU64 startSlot epochStartSlot) = subU64 startSlot epochStartSlot := by
      split
      · exact Nat.mod_eq_of_lt hinto
      · rfl
    rw [hmod] at hk
    exact slots_in_epoch startSlot epochStartSlot b.epochLength k
      (getCurrentSlot_lt_two_pow_64 _ _ _ hslot) hinto hr hk
  by_cases hc : b.epochLength ≤ subU64 startSlot epochStartSlot ∧ b.dev = false
  · refine ⟨0, Nat.zero_le _, ?_, fun _ h => absurd rfl h, hrange 0 (Nat.zero_le _)⟩
    rw [hit, c1 hc]
    dsimp only
    change handledSlots ([Event.pauseForSync] ++ (Pause b2).2.2) = _
    rw [handledSlots_append]
    rcases Pause_events b2 with h | h <;> rw [h] <;> rfl
  · by_cases hz : b.dev = true → b.epochLength ≠ 0
    · obtain ⟨k, hk1, hk2⟩ := slotPhase_count d b2 epoch startSlot
        (if b.dev then subU64 startSlot epochStartSlot % b.epochLength
          else subU64 startSlot epochStartSlot) st
      rw [hlen2] at hk1
      refine ⟨k, hk1, ?_, ?_, hrange k hk1⟩
      · rw [hit, c2 hc hz, hk2]
      · intro hd _
        by_contra hlt
        exact hc ⟨by omega, hd⟩
    · refine ⟨0, Nat.zero_le _, ?_, fun _ h => absurd rfl h, hrange 0 (Nat.zero_le _)⟩
      have hd : b.dev = true := by
        by_contra h
        exact hz (fun h2 => absurd h2 h)
      have h0 : b.epochLength = 0 := by
        by_contra h
        exact hz (fun _ => h)
      rw [hit]
      unfold catchUp
      rw [hslot2]
      dsimp only
      rw [hdev2, hlen2, hd, h0]
      simp [handledSlots]

theorem slot_numbers_of_iteration_witness :
    handledSlots (epochIteration demoDeps demoService 0 fullStep).2.2 =
      [(0, 5), (0, 6), (0, 7), (0, 8), (0, 9)] ∧
    (5 : Nat) = 0 + subU64 5 0 ∧
    ∀ j, j < 5 → addU64 5 j = 0 + subU64 5 0 + j ∧ 0 + subU64 5 0 + j < 0 + 10 := by
  obtain ⟨k, _, h2, _, h4⟩ :=
    slot_numbers_of_iteration demoDeps demoService 0 fullStep _ _ 0 5 rfl rfl rfl
  have hl : handledSlots (epochIteration demoDeps demoService 0 fullStep).2.2 =
      [(0, 5), (0, 6), (0, 7), (0, 8), (0, 9)] := by decide
  have hk : k = 5 := by
    have h := congrArg List.length h2
    rw [hl] at h
    simpa using h.symm
  subst hk
  exact ⟨hl, h4 (by decide) (by norm_num [demoService])⟩

/-- C15 fails in dev mode when the node is an epoch or more late: epoch 0 starts
at slot 0 and has 10 slots, the current slot is 25, the loop is sized with
`25 % 10 = 5` (five timers), and the slot handled is 25, which is neither
`0 + 5` nor a slot of `[5, 10)`; the epoch timer, already due, then ends the
slot loop. -/
theorem dev_mode_slots_outside_epoch :
    demoEpochState.GetStartSlotForEpoch 0 = .ok 0 ∧
    getCurrentSlot devLateStep.now devService.slotDuration = .ok 25 ∧
    subU64 25 0 % devService.epochLength = 5 ∧
    Event.makeSlotTimers 5 ∈ (epochIteration demoDeps devService 0 devLateStep).2.2 ∧
    handledSlots (epochIteration demoDeps devService 0 devLateStep).2.2 = [(0, 25)] :=
  ⟨rfl, by decide, by decide, by decide, by decide⟩

end Babe
